import Mathlib

/-!
Verification of the DrugR-model analysis pipeline.

This file embeds, in Lean 4, the parts of the repository that the
specification's testable properties speak about:

* `src/backend/utils/helpers.py` — `safe_json_parse` (the Response
  Normalizer / Repair utility) and `calculate_age_category`;
* `src/backend/data/drug_database.py` — the interaction Knowledge Base;
* `src/backend/models/granite_model.py` — `extract_drugs` and
  `_parse_drug_extraction` (the oracle-driven extraction with a lexical
  fallback);
* `src/backend/models/drug_analyzer.py` — `_format_extracted_drugs`,
  `_analyze_interactions`, `_generate_dosage_recommendations`,
  `_get_age_category`, `_find_alternatives`, `_generate_ai_insights`
  and `_generate_warnings`.

Conventions of the shallow embedding:

* Python exceptions become `Option`/`Except`: a Python function that can
  raise to its caller is modelled with `Except Unit α`; a function whose
  exceptions are swallowed at the call site returns `Option α`.
* The external text-generation oracle is an unconstrained parameter: each
  oracle call site receives an `Except Unit String` (a raised error or the
  generated text), indexed by the position of the call when a component
  performs several calls in sequence.
* `json.loads` is modelled by an executable strict JSON reader
  (`json_loads`) over `List Char` with explicit fuel, numbers kept as
  their lexeme.  The three specific regular expressions used by the code
  (`\{.*\}` spans, quote repair, trailing-comma repair) are modelled by
  dedicated scanning functions that follow the leftmost, non-overlapping
  semantics of `re.search`/`re.sub` for those exact patterns.
* Character classes are the ASCII fragments of Python's `str.lower`,
  `str.title`, `str.strip` and of the regex classes `\s`, `\w`, `\d`,
  which is exact on the inputs the pipeline handles.
-/

/-- JSON values as produced by the Python `json.loads`: object fields keep
their textual order (duplicates allowed, lookup takes the last), numbers
keep their lexeme as written. -/
inductive Json where
  | null
  | bool (b : Bool)
  | num (lexeme : String)
  | str (s : String)
  | arr (elems : List Json)
  | obj (fields : List (String × Json))

/-- Whether a JSON value is an object (a Python `dict`). -/
def Json.isObj : Json → Bool
  | .obj _ => true
  | _ => false

/-- Lookup of a key in an object's field list, taking the last binding, as
a Python `dict` built from repeated keys would. -/
def lookupLast : List (String × Json) → String → Option Json
  | [], _ => none
  | (k', v) :: rest, k =>
    match lookupLast rest k with
    | some v' => some v'
    | none => if k' = k then some v else none

/-- `d.get(k)` on a parsed JSON value: `none` when the value is not an
object or the key is absent. -/
def jget (j : Json) (k : String) : Option Json :=
  match j with
  | Json.obj kvs => lookupLast kvs k
  | _ => none

/-- `k in d` for a parsed JSON object. -/
def hasKey (j : Json) (k : String) : Bool :=
  (jget j k).isSome

/-- ASCII decimal digit. -/
def isDigitChar (c : Char) : Bool := '0' ≤ c && c ≤ '9'

/-- Python truthiness of the zero test for a numeric lexeme: the mantissa
has digits and they are all `0` (`NaN`/`Infinity` have no digits and are
truthy). -/
def numLexIsZero (s : String) : Bool :=
  let mantissa := s.data.takeWhile (fun c => c != 'e' && c != 'E')
  let ds := mantissa.filter isDigitChar
  !ds.isEmpty && ds.all (fun c => c == '0')

/-- Python truthiness of a parsed JSON value (`if result: ...`). -/
def pyTruthy : Json → Bool
  | Json.null => false
  | Json.bool b => b
  | Json.num lex => !numLexIsZero lex
  | Json.str s => !s.data.isEmpty
  | Json.arr l => !l.isEmpty
  | Json.obj kvs => !kvs.isEmpty

/-! ### The strict JSON reader (`json.loads`) -/

/-- JSON insignificant whitespace, as accepted by Python's `json.loads`. -/
def jsonWsChar (c : Char) : Bool := c == ' ' || c == '\t' || c == '\n' || c == '\r'

/-- Skip insignificant whitespace. -/
def skipWs (cs : List Char) : List Char := cs.dropWhile jsonWsChar

/-- Value of an ASCII hex digit. -/
def hexVal (c : Char) : Option Nat :=
  let n := c.toNat
  if 48 ≤ n && n ≤ 57 then some (n - 48)
  else if 97 ≤ n && n ≤ 102 then some (n - 87)
  else if 65 ≤ n && n ≤ 70 then some (n - 55)
  else none

/-- Decode one backslash escape (`json.loads` string escapes). -/
def escChar (c : Char) : Option Char :=
  if c = '"' then some '"'
  else if c = '\\' then some '\\'
  else if c = '/' then some '/'
  else if c = 'b' then some (Char.ofNat 8)
  else if c = 'f' then some (Char.ofNat 12)
  else if c = 'n' then some '\n'
  else if c = 'r' then some '\r'
  else if c = 't' then some '\t'
  else none

/-- Read the body of a JSON string after the opening quote, decoding
escapes and rejecting raw control characters, as strict `json.loads`
does.  Returns the decoded content and the input after the closing
quote. -/
def parseStrChars : List Char → Option (List Char × List Char)
  | [] => none
  | '"' :: rest => some ([], rest)
  | '\\' :: rest =>
    match rest with
    | 'u' :: h1 :: h2 :: h3 :: h4 :: r =>
      match hexVal h1, hexVal h2, hexVal h3, hexVal h4 with
      | some a, some b, some c, some d =>
        match parseStrChars r with
        | some (s, r') => some (Char.ofNat (((a * 16 + b) * 16 + c) * 16 + d) :: s, r')
        | none => none
      | _, _, _, _ => none
    | e :: r =>
      match escChar e with
      | some c =>
        match parseStrChars r with
        | some (s, r') => some (c :: s, r')
        | none => none
      | none => none
    | [] => none
  | c :: rest =>
    if c.toNat < 32 then none
    else
      match parseStrChars rest with
      | some (s, r') => some (c :: s, r')
      | none => none

/-- Read a JSON number at the head of the input, following the grammar of
Python's `json` scanner (`-? (0 | [1-9][0-9]*) (\.[0-9]+)? ([eE][+-]?[0-9]+)?`,
longest match, the fractional and exponent parts kept only when their
digits are present).  The lexeme is kept as written. -/
def parseNumChars (cs : List Char) : Option (Json × List Char) :=
  let signed := match cs with
    | '-' :: r => ((['-'] : List Char), r)
    | _ => (([] : List Char), cs)
  match signed.2 with
  | c :: r =>
    if isDigitChar c then
      let intPart := if c = '0' then [c] else c :: r.takeWhile isDigitChar
      let rest1 := if c = '0' then r else r.dropWhile isDigitChar
      let frac :=
        match rest1 with
        | '.' :: r2 =>
          let ds := r2.takeWhile isDigitChar
          if ds.isEmpty then (([] : List Char), rest1)
          else ('.' :: ds, r2.dropWhile isDigitChar)
        | _ => (([] : List Char), rest1)
      let exp :=
        match frac.2 with
        | e :: r2 =>
          if e = 'e' || e = 'E' then
            let sgn := match r2 with
              | '+' :: r4 => ((['+'] : List Char), r4)
              | '-' :: r4 => ((['-'] : List Char), r4)
              | _ => (([] : List Char), r2)
            let ds := sgn.2.takeWhile isDigitChar
            if ds.isEmpty then (([] : List Char), frac.2)
            else (e :: (sgn.1 ++ ds), sgn.2.dropWhile isDigitChar)
          else (([] : List Char), frac.2)
        | _ => (([] : List Char), frac.2)
      some (Json.num ⟨signed.1 ++ intPart ++ frac.1 ++ exp.1⟩, exp.2)
    else none
  | [] => none

/-- State of the JSON reader: a value, the members of an object being
read, or the items of an array being read. -/
inductive PMode where
  | val : PMode
  | members : List (String × Json) → PMode
  | items : List Json → PMode

/-- Shorthand for the type of the recursive reader the step functions
below receive: reading resumed with the remaining fuel. -/
def PCont : Type := PMode → List Char → Option (Json × List Char)

/-- After `{`: an immediate `}` is the empty object, anything else is
read as its members. -/
def parseObjStart (p : PCont) : List Char → Option (Json × List Char)
  | '}' :: r2 => some (Json.obj [], r2)
  | r2 => p (PMode.members []) r2

/-- After `[`: an immediate `]` is the empty array, anything else is
read as its items. -/
def parseArrStart (p : PCont) : List Char → Option (Json × List Char)
  | ']' :: r2 => some (Json.arr [], r2)
  | r2 => p (PMode.items []) r2

/-- After the opening `"` of a string value: the scanned characters
become a `Json.str`. -/
def parseStrVal (rest : List Char) : Option (Json × List Char) :=
  match parseStrChars rest with
  | some (s, r) => some (Json.str ⟨s⟩, r)
  | none => none

/-- One value: dispatch on the first character as `json.loads` does. -/
def parseValStep (p : PCont) : List Char → Option (Json × List Char)
  | '{' :: rest => parseObjStart p (skipWs rest)
  | '[' :: rest => parseArrStart p (skipWs rest)
  | '"' :: rest => parseStrVal rest
  | 't' :: 'r' :: 'u' :: 'e' :: r => some (Json.bool true, r)
  | 'f' :: 'a' :: 'l' :: 's' :: 'e' :: r => some (Json.bool false, r)
  | 'n' :: 'u' :: 'l' :: 'l' :: r => some (Json.null, r)
  | 'N' :: 'a' :: 'N' :: r => some (Json.num "NaN", r)
  | 'I' :: 'n' :: 'f' :: 'i' :: 'n' :: 'i' :: 't' :: 'y' :: r =>
    some (Json.num "Infinity", r)
  | '-' :: 'I' :: 'n' :: 'f' :: 'i' :: 'n' :: 'i' :: 't' :: 'y' :: r =>
    some (Json.num "-Infinity", r)
  | cs => parseNumChars cs

/-- After a member's value: a comma continues the object, `}` closes it. -/
def parseMembersAfter (p : PCont) (acc : List (String × Json))
    (k : List Char) (v : Json) : List Char → Option (Json × List Char)
  | ',' :: r4 => p (PMode.members (acc ++ [(⟨k⟩, v)])) (skipWs r4)
  | '}' :: r4 => some (Json.obj (acc ++ [(⟨k⟩, v)]), r4)
  | _ => none

/-- After a member's colon: read the value, then the separator. -/
def parseMembersValue (p : PCont) (acc : List (String × Json))
    (k : List Char) (cs : List Char) : Option (Json × List Char) :=
  match p PMode.val cs with
  | some (v, r3) => parseMembersAfter p acc k v (skipWs r3)
  | none => none

/-- After a member's key: a colon must follow. -/
def parseMembersColon (p : PCont) (acc : List (String × Json))
    (k : List Char) : List Char → Option (Json × List Char)
  | ':' :: r2 => parseMembersValue p acc k (skipWs r2)
  | _ => none

/-- After the opening `"` of a member's key: scan the key. -/
def parseMembersKey (p : PCont) (acc : List (String × Json))
    (rest : List Char) : Option (Json × List Char) :=
  match parseStrChars rest with
  | some (k, r1) => parseMembersColon p acc k (skipWs r1)
  | none => none

/-- One object member: the key must open with `"`. -/
def parseMembersStep (p : PCont) (acc : List (String × Json)) :
    List Char → Option (Json × List Char)
  | '"' :: rest => parseMembersKey p acc rest
  | _ => none

/-- After an item's value: a comma continues the array, `]` closes it. -/
def parseItemsAfter (p : PCont) (acc : List Json) (v : Json) :
    List Char → Option (Json × List Char)
  | ',' :: r2 => p (PMode.items (acc ++ [v])) (skipWs r2)
  | ']' :: r2 => some (Json.arr (acc ++ [v]), r2)
  | _ => none

/-- One array item: read the value, then the separator. -/
def parseItemsStep (p : PCont) (acc : List Json) (cs : List Char) :
    Option (Json × List Char) :=
  match p PMode.val cs with
  | some (v, r) => parseItemsAfter p acc v (skipWs r)
  | none => none

/-- The recursive JSON reader.  `fuel` bounds the recursion depth; every
recursive call follows the consumption of at least one input character,
so any fuel of at least twice the input length is enough. -/
def parseF : Nat → PMode → List Char → Option (Json × List Char)
  | 0, _, _ => none
  | fuel + 1, PMode.val, cs => parseValStep (parseF fuel) cs
  | fuel + 1, PMode.members acc, cs => parseMembersStep (parseF fuel) acc cs
  | fuel + 1, PMode.items acc, cs => parseItemsStep (parseF fuel) acc cs

/-- `json.loads`: read one JSON document from the whole text, allowing
surrounding whitespace, failing (raising `JSONDecodeError`, i.e. `none`)
on anything else. -/
def json_loads (s : String) : Option Json :=
  match parseF (2 * s.data.length + 2) PMode.val (skipWs s.data) with
  | some (v, rest) => if (skipWs rest).isEmpty then some v else none
  | none => none

example : json_loads "\x7b\"a\": 1\x7d" = some (Json.obj [("a", Json.num "1")]) := rfl

example : json_loads " [1, 2] " = some (Json.arr [Json.num "1", Json.num "2"]) := rfl

example : json_loads "\x7b'a': 1\x7d" = none := rfl

example : json_loads "\x7b\"a\": \"b\", \x7d" = none := rfl

example : json_loads "hello" = none := rfl

example : json_loads "\x7b\"drugs\": [\x7b\"name\": \"Aspirin\", \"confidence\": 0.95\x7d]\x7d"
    = some (Json.obj [("drugs", Json.arr
        [Json.obj [("name", Json.str "Aspirin"), ("confidence", Json.num "0.95")]])]) := rfl

/-! ### The Response Normalizer (`helpers.safe_json_parse`) -/

/-- Python-regex whitespace `\s` and `str.strip` whitespace (ASCII part). -/
def isPyWs (c : Char) : Bool :=
  c == ' ' || c == '\t' || c == '\n' || c == '\r' || c == '\x0b' || c == '\x0c'

/-- `text.strip()`. -/
def pyStrip (s : String) : String :=
  ⟨((s.data.dropWhile isPyWs).reverse.dropWhile isPyWs).reverse⟩

/-- `re.search(r'\{.*\}', text, re.DOTALL)`: with the greedy `.*`, the
match runs from the first `{` to the last `}` after it, or there is no
match. -/
def braceSpan (s : String) : Option String :=
  match s.data.dropWhile (fun c => c != '{') with
  | [] => none
  | c :: rest =>
    let body := (rest.reverse.dropWhile (fun x => x != '}')).reverse
    if body.isEmpty then none else some ⟨c :: body⟩

/-- One left-to-right, non-overlapping pass of
`re.sub(r"'([^']*)':", r'"\1":', ·)`: a single-quoted span immediately
followed by a colon becomes double-quoted.  (For this pattern the regex
engine's backtracking is vacuous: `[^']*` must stop at the next quote.) -/
def sub1Go : Nat → List Char → List Char
  | 0, cs => cs
  | _ + 1, [] => []
  | fuel + 1, c :: cs =>
    if c = '\'' then
      match cs.dropWhile (fun x => x != '\'') with
      | '\'' :: ':' :: tail =>
        '"' :: cs.takeWhile (fun x => x != '\'') ++ '"' :: ':' :: sub1Go fuel tail
      | _ => c :: sub1Go fuel cs
    else c :: sub1Go fuel cs

/-- `re.sub(r"'([^']*)':", r'"\1":', s)`. -/
def sub1 (s : String) : String := ⟨sub1Go s.data.length s.data⟩

/-- One pass of `re.sub(r":\s*'([^']*)'", r': "\1"', ·)`: a colon, then
whitespace, then a single-quoted span, rewritten with double quotes and
exactly one space. -/
def sub2Go : Nat → List Char → List Char
  | 0, cs => cs
  | _ + 1, [] => []
  | fuel + 1, c :: cs =>
    if c = ':' then
      match cs.dropWhile isPyWs with
      | '\'' :: r2 =>
        (match r2.dropWhile (fun x => x != '\'') with
         | '\'' :: tail =>
           ':' :: ' ' :: '"' :: r2.takeWhile (fun x => x != '\'') ++ '"' :: sub2Go fuel tail
         | _ => c :: sub2Go fuel cs)
      | _ => c :: sub2Go fuel cs
    else c :: sub2Go fuel cs

/-- `re.sub(r":\s*'([^']*)'", r': "\1"', s)`. -/
def sub2 (s : String) : String := ⟨sub2Go s.data.length s.data⟩

/-- One pass of `re.sub(r',(\s*[}\]])', r'\1', ·)`: a comma directly
before (whitespace and) a closing bracket is dropped. -/
def sub3Go : Nat → List Char → List Char
  | 0, cs => cs
  | _ + 1, [] => []
  | fuel + 1, c :: cs =>
    if c = ',' then
      match cs.dropWhile isPyWs with
      | b :: tail =>
        if b = '}' || b = ']' then cs.takeWhile isPyWs ++ b :: sub3Go fuel tail
        else c :: sub3Go fuel cs
      | [] => c :: sub3Go fuel cs
    else c :: sub3Go fuel cs

/-- `re.sub(r',(\s*[}\]])', r'\1', s)`. -/
def sub3 (s : String) : String := ⟨sub3Go s.data.length s.data⟩

/-- The repaired text of `safe_json_parse`'s third attempt: strip, fix
single-quoted keys, fix single-quoted values, drop trailing commas. -/
def repairedText (s : String) : String := sub3 (sub2 (sub1 (pyStrip s)))

/-- `helpers.safe_json_parse`: strict parse of the whole text; else parse
the first-`{`-to-last-`}` span; else parse the repaired text; else `None`.
Empty input short-circuits to `None`.  Exceptions never escape: the
function is total into `Option`. -/
def safe_json_parse (text : String) : Option Json :=
  if text = "" then none
  else
    match json_loads text with
    | some v => some v
    | none =>
      match braceSpan text with
      | some span =>
        (match json_loads span with
         | some v => some v
         | none => json_loads (repairedText text))
      | none => json_loads (repairedText text)

example : braceSpan "xx\x7b\"a\": 1\x7d yy" = some "\x7b\"a\": 1\x7d" := rfl

example : braceSpan "no braces" = none := rfl

example : repairedText " \x7b'a': 'b',\x7d " = "\x7b\"a\": \"b\"\x7d" := rfl

example : safe_json_parse "\x7b'a': 'b',\x7d" = some (Json.obj [("a", Json.str "b")]) := rfl

example : safe_json_parse "\x7b'a' : 'b',\x7d" = none := rfl

example : safe_json_parse "noise \x7b\"a\": 2\x7d noise" = some (Json.obj [("a", Json.num "2")]) := rfl

example : safe_json_parse "[1, 2]" = some (Json.arr [Json.num "1", Json.num "2"]) := rfl

/-! ### The interaction Knowledge Base (`data/drug_database.py`) -/

/-- ASCII lowercase of one character (`str.lower` on the pipeline's
ASCII drug names). -/
def lowerChar (c : Char) : Char :=
  if 'A' ≤ c && c ≤ 'Z' then Char.ofNat (c.toNat + 32) else c

/-- ASCII uppercase of one character. -/
def upperChar (c : Char) : Char :=
  if 'a' ≤ c && c ≤ 'z' then Char.ofNat (c.toNat - 32) else c

/-- `s.lower()`. -/
def pyLower (s : String) : String := ⟨s.data.map lowerChar⟩

/-- ASCII letter. -/
def isAsciiAlpha (c : Char) : Bool :=
  ('A' ≤ c && c ≤ 'Z') || ('a' ≤ c && c ≤ 'z')

/-- `s.title()`: a letter is uppercased after a non-letter and lowercased
after a letter. -/
def pyTitleGo : Bool → List Char → List Char
  | _, [] => []
  | prevAlpha, c :: cs =>
    let c' := if isAsciiAlpha c then (if prevAlpha then lowerChar c else upperChar c) else c
    c' :: pyTitleGo (isAsciiAlpha c) cs

/-- `s.title()`. -/
def pyTitle (s : String) : String := ⟨pyTitleGo false s.data⟩

/-- A Knowledge Base interaction entry: severity, warning, recommendation. -/
structure InteractionInfo where
  severity : String
  warning : String
  recommendation : String

/-- `DrugDatabase.interactions.get((drug1, drug2))`: the seed interaction
table of `_load_interactions`, keyed by the stored (ordered) pair. -/
def interactionsGet (d1 d2 : String) : Option InteractionInfo :=
  if d1 = "lisinopril" && d2 = "hydrochlorothiazide" then
    some ⟨"MEDIUM", "May cause excessive reduction in blood pressure",
      "Monitor blood pressure closely"⟩
  else if d1 = "warfarin" && d2 = "aspirin" then
    some ⟨"HIGH", "Increased risk of bleeding",
      "Consider alternative or reduce warfarin dose"⟩
  else if d1 = "warfarin" && d2 = "ibuprofen" then
    some ⟨"HIGH", "NSAIDs increase bleeding risk with warfarin",
      "Avoid concurrent use or monitor INR closely"⟩
  else if d1 = "ibuprofen" && d2 = "aspirin" then
    some ⟨"MEDIUM", "Increased risk of GI bleeding and reduced cardioprotective effect",
      "Consider timing separation or alternative"⟩
  else if d1 = "ibuprofen" && d2 = "acetaminophen" then
    some ⟨"LOW", "Generally safe combination",
      "Monitor for hepatotoxicity with high doses"⟩
  else if d1 = "metformin" && d2 = "gliclazide" then
    some ⟨"LOW", "Additive hypoglycemic effect",
      "Monitor blood glucose levels"⟩
  else if d1 = "amlodipine" && d2 = "lisinopril" then
    some ⟨"LOW", "Complementary antihypertensive effects",
      "Good combination, monitor blood pressure"⟩
  else if d1 = "atorvastatin" && d2 = "amlodipine" then
    some ⟨"MEDIUM", "Amlodipine may increase atorvastatin levels",
      "Consider lower atorvastatin dose"⟩
  else none

/-- `DrugDatabase._get_interaction`: look the pair up in both orders
(the stored entries are all non-empty dicts, so Python's `or` picks the
first hit). -/
def getInteraction (d1 d2 : String) : Option InteractionInfo :=
  match interactionsGet d1 d2 with
  | some i => some i
  | none => interactionsGet d2 d1

/-- The ordered pairs `(names[i], names[j])` with `i < j`, in the order
the double loop of `check_interactions` visits them. -/
def pairsOf : List α → List (α × α)
  | [] => []
  | x :: xs => xs.map (fun y => (x, y)) ++ pairsOf xs

/-- An interaction record as built by `check_interactions`: a dict with
`drug1`, `drug2` (title-cased) and the stored entry's fields spliced in.
There is no origin/source field. -/
def mkDbRecord (d1 d2 : String) (info : InteractionInfo) : List (String × Json) :=
  [("drug1", Json.str (pyTitle d1)), ("drug2", Json.str (pyTitle d2)),
   ("severity", Json.str info.severity), ("warning", Json.str info.warning),
   ("recommendation", Json.str info.recommendation)]

/-- `DrugDatabase.check_interactions`: every unordered pair of the given
names, lowercased, looked up in the table; one record per hit. -/
def check_interactions (drugNames : List String) : List (List (String × Json)) :=
  (pairsOf drugNames).filterMap fun p =>
    (getInteraction (pyLower p.1) (pyLower p.2)).map (mkDbRecord p.1 p.2)

example : check_interactions ["WARFARIN", "aspirin"] =
    [[("drug1", Json.str "Warfarin"), ("drug2", Json.str "Aspirin"),
      ("severity", Json.str "HIGH"), ("warning", Json.str "Increased risk of bleeding"),
      ("recommendation", Json.str "Consider alternative or reduce warfarin dose")]] := rfl

example : (check_interactions ["aspirin", "warfarin"]).length = 1 := rfl

/-! ### Oracle drug extraction (`models/granite_model.py`) -/

/-- Python-regex word character `\w` (ASCII part). -/
def isWordChar (c : Char) : Bool := isAsciiAlpha c || isDigitChar c || c == '_'

/-- The maximal runs of word characters of a text, in order.  A `\b`
boundary holds exactly at the two ends of such a run. -/
def wordRunsGo : Nat → List Char → List (List Char)
  | 0, _ => []
  | _ + 1, [] => []
  | fuel + 1, c :: cs =>
    if isWordChar c then
      (c :: cs.takeWhile isWordChar) :: wordRunsGo fuel (cs.dropWhile isWordChar)
    else wordRunsGo fuel cs

/-- The maximal word-character runs of a text. -/
def wordRuns (cs : List Char) : List (List Char) := wordRunsGo cs.length cs

/-- The generic-name suffixes of the first fallback pattern. -/
def drugSuffixes : List (List Char) :=
  [['i', 'n'], ['o', 'l'], ['i', 'd', 'e'], ['i', 'n', 'e'], ['a', 't', 'e'],
   ['p', 'a', 'm'], ['z', 'o', 'l', 'e'], ['c', 'i', 'l', 'l', 'i', 'n']]

/-- Whether a word run matches
`\b([A-Z][a-z]+(?:in|ol|ide|ine|ate|pam|zole|cillin))\b` with
`re.IGNORECASE`.  The two `\b` anchors force any match to cover a whole
word run, so a run matches exactly when it is all letters, ends in one of
the suffixes, and leaves at least two letters before the suffix. -/
def p1Match (run : List Char) : Bool :=
  run.all isAsciiAlpha &&
    drugSuffixes.any (fun suf =>
      suf.isSuffixOf (run.map lowerChar) && decide (suf.length + 2 ≤ run.length))

/-- Whether a word run matches
`\b(Aspirin|Ibuprofen|Acetaminophen|Tylenol|Advil)\b` with `re.IGNORECASE`:
the anchors force the run to be exactly one of the five names. -/
def p2Match (run : List Char) : Bool :=
  ["aspirin", "ibuprofen", "acetaminophen", "tylenol", "advil"].contains
    (⟨run.map lowerChar⟩ : String)

/-- Attempt the third fallback pattern
`\b([A-Z][a-z]{3,})\s+\d+\s*mg\b` (`re.IGNORECASE`) at the current
position (the `\b` before the group is checked by the caller): a letter
run of length at least 4, whitespace, digits, optional whitespace, `mg`,
then a word boundary.  Returns the group and the input after the match. -/
def matchP3At (cs : List Char) : Option (List Char × List Char) :=
  let grp := cs.takeWhile isAsciiAlpha
  if grp.length < 4 then none
  else
    let r1 := cs.dropWhile isAsciiAlpha
    if (r1.takeWhile isPyWs).isEmpty then none
    else
      let r2 := r1.dropWhile isPyWs
      if (r2.takeWhile isDigitChar).isEmpty then none
      else
        let r3 := (r2.dropWhile isDigitChar).dropWhile isPyWs
        match r3 with
        | m :: g :: tail =>
          if (m == 'm' || m == 'M') && (g == 'g' || g == 'G') then
            match tail with
            | [] => some (grp, tail)
            | t :: _ => if isWordChar t then none else some (grp, tail)
          else none
        | _ => none

/-- `re.finditer` for the third fallback pattern: leftmost,
non-overlapping scan tracking whether the previous character was a word
character (for the leading `\b`). -/
def p3ScanGo : Nat → Bool → List Char → List (List Char)
  | 0, _, _ => []
  | _ + 1, _, [] => []
  | fuel + 1, prevWord, c :: cs =>
    if !prevWord && isAsciiAlpha c then
      match matchP3At (c :: cs) with
      | some (grp, after) => grp :: p3ScanGo fuel true after
      | none => p3ScanGo fuel (isWordChar c) cs
    else p3ScanGo fuel (isWordChar c) cs

/-- All `group(1)` texts of the third fallback pattern over a text. -/
def p3Matches (cs : List Char) : List (List Char) := p3ScanGo (cs.length + 1) false cs

/-- Case-insensitive literal prefix test; on success returns the matched
original-case characters and the rest. -/
def ciPrefix : List Char → List Char → Option (List Char × List Char)
  | [], cs => some ([], cs)
  | _ :: _, [] => none
  | l :: ls, c :: cs =>
    if lowerChar l = lowerChar c then
      match ciPrefix ls cs with
      | some (m, r) => some (c :: m, r)
      | none => none
    else none

/-- Attempt `drug_name\s+(\d+\s*mg|\d+\s*g)` (`re.IGNORECASE`) at the
current position; returns `group(1)`. -/
def matchDosageAt (dn : List Char) (cs : List Char) : Option (List Char) :=
  match ciPrefix dn cs with
  | none => none
  | some (_, r1) =>
    if (r1.takeWhile isPyWs).isEmpty then none
    else
      let r2 := r1.dropWhile isPyWs
      let ds := r2.takeWhile isDigitChar
      if ds.isEmpty then none
      else
        let r3 := r2.dropWhile isDigitChar
        let ws2 := r3.takeWhile isPyWs
        match r3.dropWhile isPyWs with
        | m :: g :: _ =>
          if (m == 'm' || m == 'M') && (g == 'g' || g == 'G') then some (ds ++ ws2 ++ [m, g])
          else if m == 'g' || m == 'G' then some (ds ++ ws2 ++ [m])
          else none
        | m :: _ => if m == 'g' || m == 'G' then some (ds ++ ws2 ++ [m]) else none
        | [] => none

/-- `re.search` for the dosage pattern: leftmost match of the drug name
followed by a dosage amount. -/
def searchDosageGo : Nat → List Char → List Char → Option (List Char)
  | 0, _, _ => none
  | _ + 1, _, [] => none
  | fuel + 1, dn, c :: cs =>
    match matchDosageAt dn (c :: cs) with
    | some grp => some grp
    | none => searchDosageGo fuel dn cs

/-- The dosage text recovered for a fallback drug name, `"Not specified"`
when the pattern finds nothing. -/
def extractDosage (text dn : List Char) : String :=
  match searchDosageGo text.length dn text with
  | some grp => ⟨grp⟩
  | none => "Not specified"

/-- Attempt one alternative of the first frequency pattern
`(once daily|twice daily|three times daily|every \d+ hours)`
(`re.IGNORECASE`) at the current position. -/
def matchFreqAAt (cs : List Char) : Option (List Char) :=
  match ciPrefix "once daily".data cs with
  | some (m, _) => some m
  | none =>
    match ciPrefix "twice daily".data cs with
    | some (m, _) => some m
    | none =>
      match ciPrefix "three times daily".data cs with
      | some (m, _) => some m
      | none =>
        match ciPrefix "every ".data cs with
        | some (m1, r1) =>
          let ds := r1.takeWhile isDigitChar
          if ds.isEmpty then none
          else
            match ciPrefix " hours".data (r1.dropWhile isDigitChar) with
            | some (m2, _) => some (m1 ++ ds ++ m2)
            | none => none
        | none => none

/-- Attempt one alternative of the second frequency pattern
`(daily|bid|tid|qid|q\d+h)` (`re.IGNORECASE`) at the current position. -/
def matchFreqBAt (cs : List Char) : Option (List Char) :=
  match ciPrefix "daily".data cs with
  | some (m, _) => some m
  | none =>
    match ciPrefix "bid".data cs with
    | some (m, _) => some m
    | none =>
      match ciPrefix "tid".data cs with
      | some (m, _) => some m
      | none =>
        match ciPrefix "qid".data cs with
        | some (m, _) => some m
        | none =>
          match cs with
          | q :: r1 =>
            if q == 'q' || q == 'Q' then
              let ds := r1.takeWhile isDigitChar
              if ds.isEmpty then none
              else
                match r1.dropWhile isDigitChar with
                | h :: _ => if h == 'h' || h == 'H' then some (q :: ds ++ [h]) else none
                | [] => none
            else none
          | [] => none

/-- `re.search` with a positionwise matcher: leftmost hit. -/
def searchGo (f : List Char → Option (List Char)) : Nat → List Char → Option (List Char)
  | 0, _ => none
  | _ + 1, [] => none
  | fuel + 1, c :: cs =>
    match f (c :: cs) with
    | some grp => some grp
    | none => searchGo f fuel cs

/-- The frequency text recovered from the prescription text: the first
frequency pattern searched first, then the second, else `"Not specified"`. -/
def extractFrequency (text : List Char) : String :=
  match searchGo matchFreqAAt text.length text with
  | some grp => ⟨grp⟩
  | none =>
    match searchGo matchFreqBAt text.length text with
    | some grp => ⟨grp⟩
    | none => "Not specified"

/-- One fallback drug entry: the matched name, the dosage and frequency
recovered from the original text, and the fixed confidence `0.8`. -/
def fallbackEntry (text : List Char) (name : List Char) : Json :=
  Json.obj [("name", Json.str ⟨name⟩), ("dosage", Json.str (extractDosage text name)),
    ("frequency", Json.str (extractFrequency text)), ("confidence", Json.num "0.8")]

/-- The fallback pattern-matching pass of `_parse_drug_extraction`: all
matches of the three patterns, in pattern order then text order
(duplicates across patterns are kept, as in the code). -/
def fallbackDrugs (text : List Char) : List Json :=
  (((wordRuns text).filter p1Match) ++ ((wordRuns text).filter p2Match) ++ p3Matches text).map
    (fallbackEntry text)

/-- `GraniteModel._parse_drug_extraction`: take the brace-delimited span
of the response; if it parses and carries a `"drugs"` key, return the
parsed value unchanged; otherwise fall back to pattern matching over the
original prescription text. -/
def parse_drug_extraction (response originalText : String) : Json :=
  let fallback := Json.obj [("drugs", Json.arr (fallbackDrugs originalText.data))]
  match braceSpan response with
  | some span =>
    (match json_loads span with
     | some v => if hasKey v "drugs" then v else fallback
     | none => fallback)
  | none => fallback

/-- `GraniteModel.extract_drugs`: one oracle generation call, **not**
guarded by any `try`, then `_parse_drug_extraction` on its output.  A
failure of the generation call itself propagates to the caller. -/
def extract_drugs (oracle : Except Unit String) (prescriptionText : String) : Except Unit Json :=
  match oracle with
  | Except.error e => Except.error e
  | Except.ok response => Except.ok (parse_drug_extraction response prescriptionText)

example : parse_drug_extraction "no json here" "Aspirin" =
    Json.obj [("drugs", Json.arr
      [Json.obj [("name", Json.str "Aspirin"), ("dosage", Json.str "Not specified"),
        ("frequency", Json.str "Not specified"), ("confidence", Json.num "0.8")],
       Json.obj [("name", Json.str "Aspirin"), ("dosage", Json.str "Not specified"),
        ("frequency", Json.str "Not specified"), ("confidence", Json.num "0.8")]])] := rfl

example : parse_drug_extraction "junk" "Take Warfarin 5mg once daily" =
    Json.obj [("drugs", Json.arr
      [Json.obj [("name", Json.str "Warfarin"), ("dosage", Json.str "5mg"),
        ("frequency", Json.str "once daily"), ("confidence", Json.num "0.8")],
       Json.obj [("name", Json.str "Warfarin"), ("dosage", Json.str "5mg"),
        ("frequency", Json.str "once daily"), ("confidence", Json.num "0.8")]])] := rfl

example : parse_drug_extraction "\x7b\"drugs\": [\x7b\"name\": \"X\"\x7d]\x7d" "whatever" =
    Json.obj [("drugs", Json.arr [Json.obj [("name", Json.str "X")]])] := rfl

/-! ### The analyzer (`models/drug_analyzer.py`) -/

/-- A formatted drug mention as built by `_format_extracted_drugs`:
`word`, `confidence`, `dosage`, `frequency` carry whatever JSON value the
oracle supplied (with the defaults below); `sources` is always
`["granite"]` and `sentiment` always `"Neutral"`. -/
structure FormattedDrug where
  word : Json
  confidence : Json
  sources : List String
  dosage : Json
  frequency : Json
  sentiment : String

/-- Formatting of one oracle-reported drug entry: defaults `"Unknown"`
for the name, `0.8` for the confidence, `"Not specified"` for dosage and
frequency; provenance is the constant `["granite"]`. -/
def fmtOne (drug : Json) : FormattedDrug :=
  ⟨(jget drug "name").getD (Json.str "Unknown"),
   (jget drug "confidence").getD (Json.num "0.8"),
   ["granite"],
   (jget drug "dosage").getD (Json.str "Not specified"),
   (jget drug "frequency").getD (Json.str "Not specified"),
   "Neutral"⟩

/-- `DrugAnalyzer._format_extracted_drugs`. -/
def format_extracted_drugs (drugs : List Json) : List FormattedDrug :=
  drugs.map fmtOne

/-- The `"drugs"` list of an extraction result
(`drug_extraction.get("drugs", [])`); a non-list value would fail at
iteration in Python and cannot be produced by `_parse_drug_extraction`'s
own fallback. -/
def getDrugsList (extraction : Json) : List Json :=
  match jget extraction "drugs" with
  | some (Json.arr l) => l
  | _ => []

/-- `DrugAnalyzer._get_age_category` — the advisor's own table.  It has
no Neonate tier: every age below 2 is `"Infant"`. -/
def get_age_category (age : Int) : String :=
  if age < 2 then "Infant"
  else if age < 12 then "Child"
  else if age < 18 then "Adolescent"
  else if age < 65 then "Adult"
  else "Elderly"

/-- `helpers.calculate_age_category` — the unused helper table, which
does have the Neonate tier of the specification. -/
def calculate_age_category (age : Int) : String :=
  if age < 0 then "Invalid"
  else if age < 1 then "Neonate"
  else if age < 2 then "Infant"
  else if age < 12 then "Child"
  else if age < 18 then "Adolescent"
  else if age < 65 then "Adult"
  else "Elderly"

/-- The deterministic fallback advisory of `_get_dosage_recommendation`,
returned when the oracle's output yields no parsed JSON object. -/
def dosageFallback (drugWord : Json) (ageCategory : String) : Json :=
  Json.obj [("drug", drugWord), ("age_category", Json.str ageCategory),
    ("recommendation",
      Json.str ("Standard adult dosing may need adjustment for "
        ++ pyLower ageCategory ++ " patients")),
    ("warnings", Json.arr [Json.str "Consult healthcare provider for appropriate dosing"]),
    ("monitoring", Json.arr [Json.str "Regular monitoring recommended"])]

/-- The brace-span parse shared by the analyzer's oracle call sites:
`re.search(r'\{.*\}', response, re.DOTALL)` then `json.loads` on the
span; `none` when either step fails. -/
def braceLoads (response : String) : Option Json :=
  match braceSpan response with
  | some span => json_loads span
  | none => none

/-- `DrugAnalyzer._get_dosage_recommendation` for one drug: `None` when
the generation call raises; the parsed span when it parses; otherwise
the deterministic fallback advisory. -/
def get_dosage_recommendation (drugWord : Json) (age : Int) (ageCategory : String)
    (resp : Except Unit String) : Option Json :=
  match resp with
  | Except.error _ => none
  | Except.ok r =>
    match braceLoads r with
    | some v => some v
    | none => some (dosageFallback drugWord ageCategory)

/-- `DrugAnalyzer._generate_dosage_recommendations`: one oracle call per
mention, in order; a `None` result or a falsy parsed value is skipped
(`if recommendation: recommendations.append(...)`). -/
def generate_dosage_recommendations (drugs : List FormattedDrug) (age : Int)
    (oracle : Nat → Except Unit String) : List Json :=
  match drugs with
  | [] => []
  | d :: ds =>
    match get_dosage_recommendation d.word age (get_age_category age) (oracle 0) with
    | some rec =>
      if pyTruthy rec then
        rec :: generate_dosage_recommendations ds age (fun n => oracle (n + 1))
      else generate_dosage_recommendations ds age (fun n => oracle (n + 1))
    | none => generate_dosage_recommendations ds age (fun n => oracle (n + 1))

/-- `DrugAnalyzer._check_drug_pair_interaction`: `None` when the call
raises or nothing parses or `has_interaction` is falsy; otherwise a
record with defaults for the missing fields.  No origin field is set. -/
def check_drug_pair_interaction (drug1 drug2 : Json) (resp : Except Unit String) :
    Option (List (String × Json)) :=
  match resp with
  | Except.error _ => none
  | Except.ok r =>
    match braceLoads r with
    | some v =>
      if ((jget v "has_interaction").map pyTruthy).getD false then
        some [("drug1", drug1), ("drug2", drug2),
          ("severity", (jget v "severity").getD (Json.str "MEDIUM")),
          ("warning", (jget v "warning").getD (Json.str "Potential interaction detected")),
          ("recommendation",
            (jget v "recommendation").getD (Json.str "Consult healthcare provider"))]
      else none
    | none => none

/-- The oracle-sourced pass of `_analyze_interactions`: one call per
unordered pair, in the double-loop order; per-pair failures are caught
and only drop that pair's record. -/
def oracleInteractions (drugs : List FormattedDrug) (oracle : Nat → Except Unit String) :
    List (List (String × Json)) :=
  ((pairsOf drugs).enum).filterMap fun ip =>
    check_drug_pair_interaction ip.2.1.word ip.2.2.word (oracle ip.1)

/-- The `word` fields of the mentions as Python strings;
`drug1.lower()`/`drug1.title()` would raise `AttributeError` on a
non-string, which the caller does not catch. -/
def wordStrings : List FormattedDrug → Option (List String)
  | [] => some []
  | d :: ds =>
    match d.word with
    | Json.str s => (wordStrings ds).map (fun l => s :: l)
    | _ => none

/-- `DrugAnalyzer._analyze_interactions`: empty below two mentions; else
the Knowledge Base records followed by the oracle-asserted records.  A
non-string mention name raises (`Except.error`), since only the per-pair
oracle calls are guarded by `try`. -/
def analyze_interactions (drugs : List FormattedDrug) (oracle : Nat → Except Unit String) :
    Except Unit (List (List (String × Json))) :=
  if drugs.length < 2 then Except.ok []
  else
    match wordStrings drugs with
    | none => Except.error ()
    | some names =>
      Except.ok (check_interactions names ++ oracleInteractions drugs oracle)

/-- `DrugAnalyzer._get_drug_alternatives`: the parsed span, or `None`. -/
def get_drug_alternatives (drugWord : Json) (conditions : String)
    (resp : Except Unit String) : Option Json :=
  match resp with
  | Except.error _ => none
  | Except.ok r => braceLoads r

/-- `DrugAnalyzer._find_alternatives`: only the first three mentions are
attempted; truthy parsed results are recorded under the mention's word. -/
def find_alternatives (drugs : List FormattedDrug) (medicalConditions : List String)
    (oracle : Nat → Except Unit String) : List (Json × Json) :=
  let conditionsStr := if medicalConditions.isEmpty then "none"
    else String.intercalate ", " medicalConditions
  ((drugs.take 3).enum).filterMap fun id =>
    match get_drug_alternatives id.2.word conditionsStr (oracle id.1) with
    | some alt => if pyTruthy alt then some (id.2.word, alt) else none
    | none => none

/-- The insight summary of `_generate_ai_insights`. -/
structure AiInsights where
  extractionMethod : String
  modelsUsed : List String
  prescriptionComplexity : String
  totalDrugsFound : Nat
  confidenceScores : List (Json × Json)

/-- `DrugAnalyzer._generate_ai_insights`: complexity is `"Medium"` above
two mentions, else `"Simple"`. -/
def generate_ai_insights (drugs : List FormattedDrug) : AiInsights :=
  ⟨"IBM Granite 2B Instruct Model", ["granite"],
   (if drugs.length > 2 then "Medium" else "Simple"),
   drugs.length,
   drugs.map (fun d => (d.word, d.confidence))⟩

/-- Whether an interaction record counts as high risk in
`_generate_warnings` (`i.get("severity") == "HIGH"`). -/
def isHighRisk (rec : List (String × Json)) : Bool :=
  match lookupLast rec "severity" with
  | some (Json.str s) => s == "HIGH"
  | _ => false

/-- `DrugAnalyzer._generate_warnings`: a high-risk count warning, one
age-band warning (`age < 18` or `age > 65`; 18–65 gets none), and a
polypharmacy warning above five mentions. -/
def generate_warnings (drugs : List FormattedDrug) (interactions : List (List (String × Json)))
    (age : Int) : List String :=
  let highRisk := interactions.filter isHighRisk
  (if highRisk.length ≠ 0 then
      [("⚠️ " ++ toString highRisk.length ++ " high-risk drug interactions detected!")]
    else []) ++
  (if age < 18 then ["⚠️ Pediatric patient - dosages may need adjustment"]
   else if age > 65 then ["⚠️ Elderly patient - increased risk of adverse effects"]
   else []) ++
  (if drugs.length > 5 then
      ["⚠️ Polypharmacy detected - review for potential drug interactions"]
    else [])

/-- The assembled analysis result (the post-extraction part of
`analyze_prescription`). -/
structure AnalysisOut where
  interactions : List (List (String × Json))
  dosageRecommendations : List Json
  alternatives : List (Json × Json)
  aiInsights : AiInsights
  warnings : List String

/-- `DrugAnalyzer.analyze_prescription` from the formatted mentions on:
interactions, dosage advisories, alternatives, insights and warnings,
with each component's oracle calls supplied separately.  An uncaught
exception in the interaction step aborts the whole analysis. -/
def analyzeFromMentions (drugs : List FormattedDrug) (age : Int)
    (medicalConditions : List String) (oracleInt oracleDos oracleAlt : Nat → Except Unit String) :
    Except Unit AnalysisOut :=
  match analyze_interactions drugs oracleInt with
  | Except.error e => Except.error e
  | Except.ok inters =>
    Except.ok ⟨inters, generate_dosage_recommendations drugs age oracleDos,
      find_alternatives drugs medicalConditions oracleAlt,
      generate_ai_insights drugs,
      generate_warnings drugs inters age⟩

/-- An oracle whose every call raises. -/
def failingOracle : Nat → Except Unit String := fun _ => Except.error ()

example : get_age_category 0 = "Infant" := rfl

example : generate_dosage_recommendations [fmtOne (Json.obj [("name", Json.str "Aspirin")])]
    30 failingOracle = [] := rfl

example : generate_dosage_recommendations [fmtOne (Json.obj [("name", Json.str "Aspirin")])]
    30 (fun _ => Except.ok "gibberish") =
    [dosageFallback (Json.str "Aspirin") "Adult"] := rfl

example : analyze_interactions
    [fmtOne (Json.obj [("name", Json.str "Warfarin")]),
     fmtOne (Json.obj [("name", Json.str "Aspirin")])] failingOracle =
    Except.ok [[("drug1", Json.str "Warfarin"), ("drug2", Json.str "Aspirin"),
      ("severity", Json.str "HIGH"), ("warning", Json.str "Increased risk of bleeding"),
      ("recommendation", Json.str "Consider alternative or reduce warfarin dose")]] := rfl

/-! ### Claims -/

/-- Claim C4, counterexample.  The age category used by the dosage
advisor is `DrugAnalyzer._get_age_category`, which has no Neonate tier:
age 0 maps to `"Infant"`, not `"Neonate"` as the claim's boundary table
requires. -/
theorem C4_age_counterexample :
    get_age_category 0 = "Infant" ∧ "Infant" ≠ "Neonate" :=
  ⟨rfl, by decide⟩

/-- Claim C4, amended.  The advisor's table starts at Infant (< 2), so
ages 0 and 1 both map to Infant; the remaining sample points are as the
claim states (11 → Child, 12 and 17 → Adolescent, 18 and 64 → Adult,
65 → Elderly).  The claimed table with Neonate (< 1) is implemented only
by the helper `calculate_age_category`, which the advisor does not
call. -/
theorem C4_age_amended :
    get_age_category 0 = "Infant" ∧ get_age_category 1 = "Infant" ∧
    get_age_category 11 = "Child" ∧ get_age_category 12 = "Adolescent" ∧
    get_age_category 17 = "Adolescent" ∧ get_age_category 18 = "Adult" ∧
    get_age_category 64 = "Adult" ∧ get_age_category 65 = "Elderly" ∧
    calculate_age_category 0 = "Neonate" ∧ calculate_age_category 1 = "Infant" ∧
    calculate_age_category 11 = "Child" ∧ calculate_age_category 12 = "Adolescent" ∧
    calculate_age_category 17 = "Adolescent" ∧ calculate_age_category 18 = "Adult" ∧
    calculate_age_category 64 = "Adult" ∧ calculate_age_category 65 = "Elderly" := by
  decide

/-- Claim C6.  `safe_json_parse` is total into `Option` (exceptions are
`JSONDecodeError`s caught at each of its three attempts), and when the
strict parse, the brace-delimited-span parse and the textual-repair parse
all fail it returns `none`. -/
theorem C6_normalizer_theorem (text : String)
    (h1 : json_loads text = none)
    (h2 : ∀ sp, braceSpan text = some sp → json_loads sp = none)
    (h3 : json_loads (repairedText text) = none) :
    safe_json_parse text = none := by
  unfold safe_json_parse
  split_ifs with he
  · rfl
  · rcases hb : braceSpan text with _ | sp
    · simp [h1, hb, h3]
    · simp [h1, hb, h2 sp hb, h3]

/-- Claim C6, witness: on `"hello"` every attempt fails and the
normalizer returns `none`. -/
theorem C6_normalizer_witness : safe_json_parse "hello" = none :=
  C6_normalizer_theorem "hello" rfl
    (fun sp hsp => by rw [show braceSpan "hello" = none from rfl] at hsp; cases hsp) rfl

/-- Claim C10.  When the whole input strictly parses to a non-object
value, `safe_json_parse` returns that value unchanged: the declared
`Dict` return shape is never validated. -/
theorem C10_nonobject_theorem (text : String) (v : Json)
    (h1 : json_loads text = some v) (h2 : Json.isObj v = false) :
    safe_json_parse text = some v := by
  have hne : text ≠ "" := by
    intro he
    rw [he, show json_loads "" = none from rfl] at h1
    cases h1
  simp [safe_json_parse, hne, h1]

/-- Claim C10, witness: the JSON array `[1, 2]` comes back as an array,
not `none`. -/
theorem C10_nonobject_witness :
    safe_json_parse "[1, 2]" = some (Json.arr [Json.num "1", Json.num "2"]) :=
  C10_nonobject_theorem "[1, 2]" (Json.arr [Json.num "1", Json.num "2"]) rfl rfl

/-- Claim C2, counterexample.  `extract_drugs` performs its oracle
generation call outside any `try`: when the call fails, the failure
propagates to the caller instead of an empty mention list being
returned. -/
theorem C2_extraction_counterexample :
    extract_drugs (Except.error ()) "Aspirin 100mg" = Except.error () := rfl

/-- Claim C2, amended.  A failing generation call propagates out of
`extract_drugs` unchanged; only once generation succeeds is every
response — however malformed — contained, in which case the result is
always a valid extraction carrying a `"drugs"` entry. -/
theorem C2_extraction_amended :
    (∀ (e : Unit) (text : String), extract_drugs (Except.error e) text = Except.error e) ∧
    (∀ (response text : String), ∃ v,
      extract_drugs (Except.ok response) text = Except.ok v ∧ hasKey v "drugs" = true) := by
  constructor
  · intro e text; rfl
  · intro response text
    refine ⟨parse_drug_extraction response text, rfl, ?_⟩
    unfold parse_drug_extraction
    rcases hb : braceSpan response with _ | span
    · rfl
    · simp only []
      rcases hl : json_loads span with _ | v
    
      · rfl
      · by_cases hk : hasKey v "drugs"
        · simp [hk]
        · simp only [hk, Bool.false_eq_true, if_false]
          rfl

/-- Claim C9, counterexample.  An oracle entry that explicitly reports an
empty name yields a DrugMention whose name is the empty string: the
`"Unknown"` default applies only when the field is absent. -/
theorem C9_format_counterexample :
    format_extracted_drugs [Json.obj [("name", Json.str "")]] =
      [⟨Json.str "", Json.num "0.8", ["granite"], Json.str "Not specified",
        Json.str "Not specified", "Neutral"⟩] := rfl

/-- Claim C9, amended.  Every oracle entry yields exactly its formatted
mention; the name defaults to `"Unknown"` (hence non-empty) when the
oracle omits it and is the oracle's own string otherwise — so it is empty
only when the oracle explicitly supplies an empty name; the confidence
defaults to `0.8` exactly when the oracle omits it. -/
theorem C9_format_amended (entries : List Json) (e : Json) (he : e ∈ entries) :
    fmtOne e ∈ format_extracted_drugs entries ∧
    (jget e "name" = none → (fmtOne e).word = Json.str "Unknown") ∧
    (∀ s, jget e "name" = some (Json.str s) → (fmtOne e).word = Json.str s) ∧
    (jget e "confidence" = none → (fmtOne e).confidence = Json.num "0.8") := by
  refine ⟨List.mem_map_of_mem _ he, ?_, ?_, ?_⟩
  · intro h; simp [fmtOne, h]
  · intro s h; simp [fmtOne, h]
  · intro h; simp [fmtOne, h]

/-- Claim C9, witness: an entry with no fields at all formats to the
`"Unknown"` / `0.8` defaults. -/
theorem C9_format_witness :
    fmtOne (Json.obj []) ∈ format_extracted_drugs [Json.obj []] ∧
    (fmtOne (Json.obj [])).word = Json.str "Unknown" ∧
    (fmtOne (Json.obj [])).confidence = Json.num "0.8" := by
  obtain ⟨h1, h2, _, h4⟩ := C9_format_amended [Json.obj []] (Json.obj []) (by simp)
  exact ⟨h1, h2 rfl, h4 rfl⟩

/-- Claim C5, counterexample.  An extraction whose oracle response is
unparseable falls back to pattern matching, yet the resulting mentions
carry `sources = ["granite"]` — exactly the marker of the oracle-derived
path (second conjunct).  No distinct pattern-derived provenance marker
exists anywhere in the pipeline. -/
theorem C5_provenance_counterexample :
    format_extracted_drugs (getDrugsList (parse_drug_extraction "no json here" "Aspirin")) =
      [⟨Json.str "Aspirin", Json.num "0.8", ["granite"], Json.str "Not specified",
        Json.str "Not specified", "Neutral"⟩,
       ⟨Json.str "Aspirin", Json.num "0.8", ["granite"], Json.str "Not specified",
        Json.str "Not specified", "Neutral"⟩] ∧
    (fmtOne (Json.obj [("name", Json.str "Oracle")])).sources = ["granite"] := ⟨rfl, rfl⟩

/-- Claim C5, amended.  Every formatted mention — whether its entry came
from the oracle's structured output or from the lexical fallback —
carries the same provenance `["granite"]`, and every fallback entry
carries the fixed confidence `0.8`; pattern-derived mentions are not
distinguishable from oracle-derived ones. -/
theorem C5_provenance_amended :
    (∀ (entries : List Json) (d : FormattedDrug), d ∈ format_extracted_drugs entries →
      d.sources = ["granite"] ∧ d.sentiment = "Neutral") ∧
    (∀ (text : List Char) (e : Json), e ∈ fallbackDrugs text →
      jget e "confidence" = some (Json.num "0.8")) := by
  constructor
  · intro entries d hd
    simp only [format_extracted_drugs] at hd
    obtain ⟨e, _, rfl⟩ := List.mem_map.mp hd
    exact ⟨rfl, rfl⟩
  · intro text e he
    simp only [fallbackDrugs] at he
    obtain ⟨nm, _, rfl⟩ := List.mem_map.mp he
    rfl

/-- Claim C5, witness: a concrete oracle-path mention and a concrete
fallback entry, with the common marker and the fixed confidence. -/
theorem C5_provenance_witness :
    (fmtOne (Json.obj [])).sources = ["granite"] ∧
    jget (fallbackEntry "Aspirin".data "Aspirin".data) "confidence" =
      some (Json.num "0.8") := by
  constructor
  · exact (C5_provenance_amended.1 [Json.obj []] _ (by simp [format_extracted_drugs])).1
  · refine C5_provenance_amended.2 "Aspirin".data _ ?_
    rw [show fallbackDrugs "Aspirin".data =
      [fallbackEntry "Aspirin".data "Aspirin".data,
       fallbackEntry "Aspirin".data "Aspirin".data] from rfl]
    exact List.mem_cons_self _ _

/-- Whether a per-drug dosage oracle outcome survives
`_generate_dosage_recommendations`' `if recommendation:` filter: the call
must succeed, and a successfully parsed span must be truthy (parse
failures survive via the fallback advisory). -/
def dosageKept (resp : Except Unit String) : Bool :=
  match resp with
  | Except.error _ => false
  | Except.ok r =>
    match braceLoads r with
    | some v => pyTruthy v
    | none => true

/-- Claim C1, counterexample.  When the oracle generation call for a drug
raises, `_get_dosage_recommendation` returns `None` and the advisory is
dropped: one mention, zero advisories. -/
theorem C1_dosage_counterexample :
    generate_dosage_recommendations [fmtOne (Json.obj [("name", Json.str "Aspirin")])]
      30 failingOracle = [] ∧
    [fmtOne (Json.obj [("name", Json.str "Aspirin")])].length = 1 := ⟨rfl, rfl⟩

/-- Claim C1, amended.  When a drug's generation call succeeds but its
output yields no parsed JSON object, the advisory is the deterministic
fallback naming the category that `_get_age_category` computes for the
age; and the advisory list has exactly one advisory per mention provided
every generation call succeeds and no successfully parsed result is a
falsy (empty) object. -/
theorem C1_dosage_amended :
    (∀ (w : Json) (age : Int) (r : String), braceLoads r = none →
      get_dosage_recommendation w age (get_age_category age) (Except.ok r) =
        some (dosageFallback w (get_age_category age))) ∧
    (∀ (drugs : List FormattedDrug) (age : Int) (oracle : Nat → Except Unit String),
      (∀ i, i < drugs.length → dosageKept (oracle i) = true) →
      (generate_dosage_recommendations drugs age oracle).length = drugs.length) := by
  constructor
  · intro w age r h
    simp [get_dosage_recommendation, h]
  · intro drugs
    induction drugs with
    | nil => intro age oracle _; rfl
    | cons d ds ih =>
      intro age oracle h
      have h0 := h 0 (by simp)
      have hrec := ih age (fun n => oracle (n + 1)) (fun i hi => h (i + 1) (by simpa using hi))
      unfold generate_dosage_recommendations
      rcases ho : oracle 0 with e | r
      · rw [ho] at h0; simp [dosageKept] at h0
      · rw [ho] at h0
        rcases hb : braceLoads r with _ | v

        · simp [get_dosage_recommendation, hb, hrec, dosageFallback, pyTruthy]

        · have hv : pyTruthy v = true := by simpa [dosageKept, hb] using h0
          simp [get_dosage_recommendation, hb, hv, hrec]

/-- Claim C1, witness: a mention whose oracle output is unparseable gets
the fallback advisory, and the advisory count equals the mention count. -/
theorem C1_dosage_witness :
    get_dosage_recommendation (Json.str "Aspirin") 30 (get_age_category 30)
      (Except.ok "gibberish") = some (dosageFallback (Json.str "Aspirin")
        (get_age_category 30)) ∧
    (generate_dosage_recommendations [fmtOne (Json.obj [("name", Json.str "Aspirin")])]
      30 (fun _ => Except.ok "gibberish")).length = 1 :=
  ⟨C1_dosage_amended.1 (Json.str "Aspirin") 30 "gibberish" rfl,
   C1_dosage_amended.2 [fmtOne (Json.obj [("name", Json.str "Aspirin")])] 30
     (fun _ => Except.ok "gibberish") (fun _ _ => rfl)⟩

/-- The seed interaction table stores each unordered pair in one
direction only: a hit for `(a, b)` means the reversed key is absent. -/
theorem interactionsGet_rev (a b : String) (info : InteractionInfo)
    (h : interactionsGet a b = some info) : interactionsGet b a = none := by
  unfold interactionsGet at h
  split_ifs at h with h1 h2 h3 h4 h5 h6 h7 h8
  · obtain ⟨rfl, rfl⟩ : a = "lisinopril" ∧ b = "hydrochlorothiazide" := by simpa using h1
    rfl
  · obtain ⟨rfl, rfl⟩ : a = "warfarin" ∧ b = "aspirin" := by simpa using h2
    rfl
  · obtain ⟨rfl, rfl⟩ : a = "warfarin" ∧ b = "ibuprofen" := by simpa using h3
    rfl
  · obtain ⟨rfl, rfl⟩ : a = "ibuprofen" ∧ b = "aspirin" := by simpa using h4
    rfl
  · obtain ⟨rfl, rfl⟩ : a = "ibuprofen" ∧ b = "acetaminophen" := by simpa using h5
    rfl
  · obtain ⟨rfl, rfl⟩ : a = "metformin" ∧ b = "gliclazide" := by simpa using h6
    rfl
  · obtain ⟨rfl, rfl⟩ : a = "amlodipine" ∧ b = "lisinopril" := by simpa using h7
    rfl
  · obtain ⟨rfl, rfl⟩ : a = "atorvastatin" ∧ b = "amlodipine" := by simpa using h8
    rfl

/-- `_get_interaction` is order-insensitive: it checks both key orders. -/
theorem getInteraction_symm (a b : String) (info : InteractionInfo)
    (h : getInteraction a b = some info) : getInteraction b a = some info := by
  unfold getInteraction at h ⊢
  rcases hab : interactionsGet a b with _ | i
  · simp only [hab] at h
    simp [h]
  · simp only [hab] at h
    injection h with h'
    subst h'
    simp [interactionsGet_rev a b i hab, hab]

/-- Two distinct members of a list appear together in some orientation
among the ordered pairs the double loop enumerates. -/
theorem mem_pairsOf {α : Type} {s1 s2 : α} {l : List α} (h1 : s1 ∈ l) (h2 : s2 ∈ l)
    (hne : s1 ≠ s2) : (s1, s2) ∈ pairsOf l ∨ (s2, s1) ∈ pairsOf l := by
  induction l with
  | nil => cases h1
  | cons x xs ih =>
    rcases List.mem_cons.mp h1 with rfl | h1'
    · rcases List.mem_cons.mp h2 with rfl | h2'
      · exact absurd rfl hne
      · exact Or.inl (List.mem_append_left _ (List.mem_map_of_mem _ h2'))
    · rcases List.mem_cons.mp h2 with rfl | h2'
      · exact Or.inr (List.mem_append_left _ (List.mem_map_of_mem _ h1'))
      · rcases ih h1' h2' with h | h
        · exact Or.inl (List.mem_append_right _ h)
        · exact Or.inr (List.mem_append_right _ h)

/-- `wordStrings` preserves length. -/
theorem wordStrings_length {drugs : List FormattedDrug} {names : List String}
    (h : wordStrings drugs = some names) : names.length = drugs.length := by
  induction drugs generalizing names with
  | nil =>
    simp only [wordStrings] at h
    injection h with h'
    simp [← h']
  | cons d ds ih =>
    simp only [wordStrings] at h
    rcases hw : d.word with _ | b | lx | s | el | fs
    · simp [hw] at h
    · simp [hw] at h
    · simp [hw] at h
    · simp only [hw] at h
      rcases hws : wordStrings ds with _ | l
      · simp [hws] at h
      · rw [hws] at h
        simp at h
        subst h
        simp [ih hws]
    · simp [hw] at h
    · simp [hw] at h

/-- A list with two distinct members has length at least two. -/
theorem two_le_length_of_mem {α : Type} {s1 s2 : α} {l : List α} (h1 : s1 ∈ l)
    (h2 : s2 ∈ l) (hne : s1 ≠ s2) : 2 ≤ l.length := by
  rcases l with _ | ⟨x, _ | ⟨y, t⟩⟩
  · cases h1
  · rw [List.mem_singleton.mp h1, List.mem_singleton.mp h2] at hne
    exact absurd rfl hne
  · simp [List.length_cons]

/-- Completeness of the Knowledge Base pass: a table hit on two of the
names (any casing) yields a record with exactly the stored fields. -/
theorem check_interactions_complete {names : List String} {s1 s2 : String}
    {info : InteractionInfo}
    (h1 : s1 ∈ names) (h2 : s2 ∈ names) (hne : pyLower s1 ≠ pyLower s2)
    (hi : getInteraction (pyLower s1) (pyLower s2) = some info) :
    ∃ rec ∈ check_interactions names,
      ("severity", Json.str info.severity) ∈ rec ∧
      ("warning", Json.str info.warning) ∈ rec ∧
      ("recommendation", Json.str info.recommendation) ∈ rec := by
  have hne' : s1 ≠ s2 := fun he => hne (he ▸ rfl)
  rcases mem_pairsOf h1 h2 hne' with hp | hp
  · refine ⟨mkDbRecord s1 s2 info, ?_, ?_, ?_, ?_⟩
    · exact List.mem_filterMap.mpr ⟨(s1, s2), hp, by simp [hi]⟩
    · simp [mkDbRecord]
    · simp [mkDbRecord]
    · simp [mkDbRecord]
  · refine ⟨mkDbRecord s2 s1 info, ?_, ?_, ?_, ?_⟩
    · exact List.mem_filterMap.mpr ⟨(s2, s1), hp, by simp [getInteraction_symm _ _ _ hi]⟩
    · simp [mkDbRecord]
    · simp [mkDbRecord]
    · simp [mkDbRecord]

/-- Claim C3, counterexample.  Reconciling `[Warfarin, Aspirin]` yields
exactly the stored Knowledge Base record — whose keys are only `drug1`,
`drug2`, `severity`, `warning`, `recommendation` (second conjunct): no
record carries an origin/`KNOWLEDGE_BASE` tag. -/
theorem C3_reconcile_counterexample :
    analyze_interactions
      [fmtOne (Json.obj [("name", Json.str "Warfarin")]),
       fmtOne (Json.obj [("name", Json.str "Aspirin")])] failingOracle =
      Except.ok [[("drug1", Json.str "Warfarin"), ("drug2", Json.str "Aspirin"),
        ("severity", Json.str "HIGH"), ("warning", Json.str "Increased risk of bleeding"),
        ("recommendation", Json.str "Consider alternative or reduce warfarin dose")]] ∧
    ((check_interactions ["Warfarin", "Aspirin"]).map (fun rec => rec.map Prod.fst)) =
      [["drug1", "drug2", "severity", "warning", "recommendation"]] := ⟨rfl, rfl⟩

/-- Claim C3, amended.  For every pair in the Knowledge Base table and
every mention list containing both names in any casing, reconciliation
succeeds and returns at least one record whose severity, warning and
recommendation equal the stored entry exactly — but records carry no
origin tag of any kind. -/
theorem C3_reconcile_amended (drugs : List FormattedDrug)
    (oracle : Nat → Except Unit String) (names : List String) (s1 s2 : String)
    (info : InteractionInfo)
    (hw : wordStrings drugs = some names)
    (h1 : s1 ∈ names) (h2 : s2 ∈ names)
    (hne : pyLower s1 ≠ pyLower s2)
    (hi : getInteraction (pyLower s1) (pyLower s2) = some info) :
    ∃ out, analyze_interactions drugs oracle = Except.ok out ∧
      ∃ rec ∈ out,
        ("severity", Json.str info.severity) ∈ rec ∧
        ("warning", Json.str info.warning) ∈ rec ∧
        ("recommendation", Json.str info.recommendation) ∈ rec := by
  have hlen : 2 ≤ drugs.length := by
    have hn := two_le_length_of_mem h1 h2 (fun he => hne (he ▸ rfl))
    rw [wordStrings_length hw] at hn
    exact hn
  refine ⟨check_interactions names ++ oracleInteractions drugs oracle, ?_, ?_⟩
  · unfold analyze_interactions
    rw [if_neg (by omega), hw]
  · obtain ⟨rec, hmem, hsev, hwarn, hrecm⟩ := check_interactions_complete h1 h2 hne hi
    exact ⟨rec, List.mem_append_left _ hmem, hsev, hwarn, hrecm⟩

/-- Claim C3, witness: the Warfarin/Aspirin pair in mixed casing yields
the stored HIGH record. -/
theorem C3_reconcile_witness :
    ∃ out, analyze_interactions
      [fmtOne (Json.obj [("name", Json.str "WARFARIN")]),
       fmtOne (Json.obj [("name", Json.str "aspirin")])] failingOracle = Except.ok out ∧
      ∃ rec ∈ out,
        ("severity", Json.str "HIGH") ∈ rec ∧
        ("warning", Json.str "Increased risk of bleeding") ∈ rec ∧
        ("recommendation", Json.str "Consider alternative or reduce warfarin dose") ∈ rec :=
  C3_reconcile_amended _ failingOracle ["WARFARIN", "aspirin"] "WARFARIN" "aspirin"
    ⟨"HIGH", "Increased risk of bleeding", "Consider alternative or reduce warfarin dose"⟩
    rfl (by simp) (by simp) (by decide) rfl

/-- Claim C8, counterexample.  With an empty mention list but age 10, the
assembled result's warnings list is not empty: the pediatric age warning
fires independently of the mentions. -/
theorem C8_empty_counterexample :
    analyzeFromMentions [] 10 [] failingOracle failingOracle failingOracle =
      Except.ok ⟨[], [], [],
        ⟨"IBM Granite 2B Instruct Model", ["granite"], "Simple", 0, []⟩,
        ["⚠️ Pediatric patient - dosages may need adjustment"]⟩ ∧
    (["⚠️ Pediatric patient - dosages may need adjustment"] : List String) ≠ [] :=
  ⟨rfl, by decide⟩

/-- Claim C8, amended.  With an empty mention list the assembled result
has empty interactions, dosage advisories and alternatives and insight
complexity `"Simple"` for every age and condition list; the warnings list
contains no polypharmacy and no high-risk warning, but it is empty only
for ages 18–65: below 18 the pediatric warning appears and above 65 the
elderly warning does. -/
theorem C8_empty_amended (age : Int) (conds : List String)
    (o1 o2 o3 : Nat → Except Unit String) :
    analyzeFromMentions [] age conds o1 o2 o3 =
      Except.ok ⟨[], [], [],
        ⟨"IBM Granite 2B Instruct Model", ["granite"], "Simple", 0, []⟩,
        (if age < 18 then ["⚠️ Pediatric patient - dosages may need adjustment"]
         else if age > 65 then ["⚠️ Elderly patient - increased risk of adverse effects"]
         else [])⟩ := by
  simp [analyzeFromMentions, analyze_interactions, generate_dosage_recommendations,
    find_alternatives, generate_ai_insights, generate_warnings]

/-- Claim C8, witness: at age 30 the empty-mentions result is fully
empty with complexity `"Simple"`. -/
theorem C8_empty_witness :
    analyzeFromMentions [] 30 [] failingOracle failingOracle failingOracle =
      Except.ok ⟨[], [], [],
        ⟨"IBM Granite 2B Instruct Model", ["granite"], "Simple", 0, []⟩, []⟩ := by
  have h := C8_empty_amended 30 [] failingOracle failingOracle failingOracle
  simpa using h

/-! ### Claim C7: repair idempotence of the Normalizer

The repair property is stated for object-shaped strings rendered in the
canonical layout `{"k": "v", ...}` from alphanumeric keys and values, and
for their single-quoted, trailing-comma variants `{'k': 'v', }`. -/

/-- ASCII letter or digit — the character set of the rendered keys and
values. -/
def goodChar (c : Char) : Bool :=
  (97 ≤ c.toNat && c.toNat ≤ 122) || (65 ≤ c.toNat && c.toNat ≤ 90) ||
    (48 ≤ c.toNat && c.toNat ≤ 57)

/-- All characters alphanumeric. -/
def goodStr (s : String) : Bool := s.data.all goodChar

/-- The canonical double-quoted members `"k1": "v1", "k2": "v2"`,
with an explicit continuation. -/
def dqMembersApp : List (String × String) → List Char → List Char
  | [], tail => tail
  | [(k, v)], tail => '"' :: k.data ++ '"' :: ':' :: ' ' :: '"' :: v.data ++ '"' :: tail
  | (k, v) :: rest, tail =>
    '"' :: k.data ++ '"' :: ':' :: ' ' :: '"' :: v.data ++ '"' :: ',' :: ' ' ::
      dqMembersApp rest tail

/-- The canonical object rendering `{"k1": "v1", "k2": "v2"}`. -/
def dqRender (kvs : List (String × String)) : String :=
  ⟨'{' :: dqMembersApp kvs ['}']⟩

/-- The single-quoted blocks `'k1': 'v1', 'k2': 'v2', ` — every pair,
the last included, is followed by a comma and a space. -/
def sqBlocksApp : List (String × String) → List Char → List Char
  | [], tail => tail
  | (k, v) :: rest, tail =>
    '\'' :: k.data ++ '\'' :: ':' :: ' ' :: '\'' :: v.data ++ '\'' :: ',' :: ' ' ::
      sqBlocksApp rest tail

/-- The single-quoted, trailing-comma variant `{'k1': 'v1', 'k2': 'v2', }`. -/
def sqVariant (kvs : List (String × String)) : String :=
  ⟨'{' :: sqBlocksApp kvs ['}']⟩

/-- The blocks after the key repair: `"k1": 'v1', "k2": 'v2', `. -/
def mid1App : List (String × String) → List Char → List Char
  | [], tail => tail
  | (k, v) :: rest, tail =>
    '"' :: k.data ++ '"' :: ':' :: ' ' :: '\'' :: v.data ++ '\'' :: ',' :: ' ' ::
      mid1App rest tail

/-- The blocks after the value repair: `"k1": "v1", "k2": "v2", `. -/
def mid2App : List (String × String) → List Char → List Char
  | [], tail => tail
  | (k, v) :: rest, tail =>
    '"' :: k.data ++ '"' :: ':' :: ' ' :: '"' :: v.data ++ '"' :: ',' :: ' ' ::
      mid2App rest tail

/-- An alphanumeric character is none of the given delimiters. -/
theorem goodChar_ne {c : Char} (h : goodChar c = true) {b : Char}
    (hb : goodChar b = false) : c ≠ b := by
  intro he
  subst he
  rw [h] at hb
  cases hb

/-- Alphanumeric characters are not regex whitespace. -/
theorem goodChar_not_pyWs {c : Char} (h : goodChar c = true) : isPyWs c = false := by
  simp only [isPyWs, Bool.or_eq_false_iff, beq_eq_false_iff_ne]
  refine ⟨⟨⟨⟨⟨?_, ?_⟩, ?_⟩, ?_⟩, ?_⟩, ?_⟩ <;> exact goodChar_ne h (by decide)

/-- Alphanumeric characters are not JSON whitespace. -/
theorem goodChar_not_jsonWs {c : Char} (h : goodChar c = true) : jsonWsChar c = false := by
  simp only [jsonWsChar, Bool.or_eq_false_iff, beq_eq_false_iff_ne]
  refine ⟨⟨⟨?_, ?_⟩, ?_⟩, ?_⟩ <;> exact goodChar_ne h (by decide)

/-- Alphanumeric characters are not control characters. -/
theorem goodChar_ge32 {c : Char} (h : goodChar c = true) : ¬(c.toNat < 32) := by
  simp only [goodChar, Bool.or_eq_true, Bool.and_eq_true, decide_eq_true_eq] at h
  omega

/-- `dropWhile` runs through a satisfying prefix and stops at the first
failing character. -/
theorem dropWhile_app {p : Char → Bool} :
    ∀ {l : List Char}, (∀ c ∈ l, p c = true) →
    ∀ {x : Char}, p x = false → ∀ (r : List Char), (l ++ x :: r).dropWhile p = x :: r := by
  intro l
  induction l with
  | nil => intro _ x hx r; simp [List.dropWhile_cons, hx]
  | cons a l ih =>
    intro h x hx r
    have ha := h a (List.mem_cons_self a l)
    simp [List.dropWhile_cons, ha, ih (fun c hc => h c (List.mem_cons_of_mem a hc)) hx r]

/-- `takeWhile` keeps exactly a satisfying prefix. -/
theorem takeWhile_app {p : Char → Bool} :
    ∀ {l : List Char}, (∀ c ∈ l, p c = true) →
    ∀ {x : Char}, p x = false → ∀ (r : List Char), (l ++ x :: r).takeWhile p = l := by
  intro l
  induction l with
  | nil => intro _ x hx r; simp [List.takeWhile_cons, hx]
  | cons a l ih =>
    intro h x hx r
    have ha := h a (List.mem_cons_self a l)
    simp [List.takeWhile_cons, ha, ih (fun c hc => h c (List.mem_cons_of_mem a hc)) hx r]

/-- An alphanumeric string has no single quote. -/
theorem goodStr_ne_quote {s : String} (h : goodStr s = true) :
    ∀ c ∈ s.data, (c != '\'') = true := by
  intro c hc
  exact bne_iff_ne.mpr (goodChar_ne (by simpa using List.all_eq_true.mp h c hc) (by decide))

/-- The key-repair scanner leaves the empty input unchanged. -/
theorem sub1Go_nil : ∀ fuel, sub1Go fuel [] = [] := by
  intro fuel; cases fuel <;> rfl

/-- The key-repair scanner copies characters that are not single
quotes. -/
theorem sub1Go_emit : ∀ (l : List Char), (∀ c ∈ l, c ≠ '\'') → ∀ fuel cs,
    sub1Go (l.length + fuel) (l ++ cs) = l ++ sub1Go fuel cs := by
  intro l
  induction l with
  | nil => intro _ fuel cs; simp
  | cons a l ih =>
    intro h fuel cs
    have ha : a ≠ '\'' := h a (List.mem_cons_self a l)
    have harith : (a :: l).length + fuel = (l.length + fuel) + 1 := by
      simp [List.length_cons]
      omega
    rw [harith]
    show sub1Go ((l.length + fuel) + 1) (a :: (l ++ cs)) = _
    simp [sub1Go, ha, ih (fun c hc => h c (List.mem_cons_of_mem a hc)) fuel cs]

/-- Fuel spent by the key-repair scanner on the single-quoted blocks. -/
def sub1Cost : List (String × String) → Nat
  | [] => 0
  | (_, v) :: rest => v.data.length + 6 + sub1Cost rest

/-- A single-quoted span immediately followed by a colon is rewritten
with double quotes. -/
theorem sub1_step_quote_match (k : List Char) (hk : ∀ c ∈ k, (c != '\'') = true)
    (tail : List Char) (f : Nat) :
    sub1Go (f + 1) ('\'' :: (k ++ '\'' :: ':' :: tail)) =
      '"' :: k ++ '"' :: ':' :: sub1Go f tail := by
  rw [sub1Go.eq_3, if_pos rfl, dropWhile_app hk (by decide), takeWhile_app hk (by decide)]
  rfl

/-- A single quote that does not open a `'...':` span is copied. -/
theorem sub1_step_quote_nomatch (cs : List Char)
    (h : ∀ t, cs.dropWhile (fun x => x != '\'') ≠ '\'' :: ':' :: t) (f : Nat) :
    sub1Go (f + 1) ('\'' :: cs) = '\'' :: sub1Go f cs := by
  rw [sub1Go.eq_3, if_pos rfl]
  split
  next heq => exact absurd heq (h _)
  next => rfl

/-- Any other character is copied. -/
theorem sub1_step_other (c : Char) (hc : c ≠ '\'') (cs : List Char) (f : Nat) :
    sub1Go (f + 1) (c :: cs) = c :: sub1Go f cs := by
  rw [sub1Go.eq_3, if_neg hc]

/-- After a block's trailing `', '`, the key-repair pattern cannot fire:
what follows is either the closing brace or the next block's quoted key,
whose first character is not a colon. -/
theorem noKeyMatch_comma (R : List Char)
    (hcase : R = ['}'] ∨ ∃ (k2 v2 : String) (r2 : List (String × String)),
      R = sqBlocksApp ((k2, v2) :: r2) ['}'] ∧ goodStr k2 = true) :
    ∀ t, ((',' :: ' ' :: R).dropWhile (fun x => x != '\'')) ≠ '\'' :: ':' :: t := by
  intro t
  rcases hcase with rfl | ⟨k2, v2, r2, rfl, hk2⟩
  · intro he
    simp [List.dropWhile] at he
  · simp only [sqBlocksApp, List.cons_append, List.append_assoc]
    rw [show ((',' :: ' ' :: '\'' :: (k2.data ++
        '\'' :: ':' :: ' ' :: '\'' :: (v2.data ++ '\'' :: ',' :: ' ' ::
          sqBlocksApp r2 ['}']))).dropWhile (fun x => x != '\'')) =
      '\'' :: (k2.data ++ '\'' :: ':' :: ' ' :: '\'' :: (v2.data ++ '\'' :: ',' :: ' ' ::
          sqBlocksApp r2 ['}'])) from by simp [List.dropWhile_cons]]
    intro he
    injection he with _ he2
    rcases hd : k2.data with _ | ⟨c, cd⟩
    · rw [hd] at he2
      simp at he2
    · rw [hd] at he2
      have hc : goodChar c = true := by
        have := List.all_eq_true.mp hk2 c (by rw [hd]; exact List.mem_cons_self c cd)
        simpa using this
      simp at he2
      exact absurd he2.1 (goodChar_ne hc (by decide))

/-- The key-repair pass turns the single-quoted blocks into blocks with
double-quoted keys, leaving values single-quoted. -/
theorem sub1Go_blocks :
    ∀ (kvs : List (String × String)),
      (∀ p ∈ kvs, goodStr p.1 = true ∧ goodStr p.2 = true) → ∀ fuel,
      sub1Go (sub1Cost kvs + fuel) (sqBlocksApp kvs ['}']) = mid1App kvs ['}'] := by
  intro kvs
  induction kvs with
  | nil =>
    intro _ fuel
    show sub1Go (0 + fuel) ['}'] = ['}']
    rw [Nat.zero_add]
    cases fuel with
    | zero => rfl
    | succ f => rw [sub1_step_other '}' (by decide), sub1Go_nil]
  | cons p rest ih =>
    obtain ⟨k, v⟩ := p
    intro hgood fuel
    obtain ⟨hk, hv⟩ := hgood (k, v) (List.mem_cons_self _ _)
    have hrest : ∀ q ∈ rest, goodStr q.1 = true ∧ goodStr q.2 = true :=
      fun q hq => hgood q (List.mem_cons_of_mem _ hq)
    have hkq := goodStr_ne_quote hk
    have hvq := goodStr_ne_quote hv
    have hvne : ∀ c ∈ v.data, c ≠ '\'' := fun c hc => bne_iff_ne.mp (hvq c hc)
    have hcase : sqBlocksApp rest ['}'] = ['}'] ∨
        ∃ (k2 v2 : String) (r2 : List (String × String)),
          sqBlocksApp rest ['}'] = sqBlocksApp ((k2, v2) :: r2) ['}'] ∧ goodStr k2 = true := by
      cases rest with
      | nil => exact Or.inl rfl
      | cons q r2 =>
        exact Or.inr ⟨q.1, q.2, r2, rfl, (hrest q (List.mem_cons_self _ _)).1⟩
    have hnomatch := noKeyMatch_comma _ hcase
    have hnm1 : ∀ t, ((v.data ++ '\'' :: ',' :: ' ' :: sqBlocksApp rest ['}']).dropWhile
        (fun x => x != '\'')) ≠ '\'' :: ':' :: t := by
      intro t
      rw [dropWhile_app hvq (by decide)]
      intro he
      simp at he
    simp only [sqBlocksApp, mid1App, List.cons_append, List.append_assoc]
    have e1 : sub1Cost ((k, v) :: rest) + fuel =
        (v.data.length + 5 + (sub1Cost rest + fuel)) + 1 := by
      simp [sub1Cost]
      omega
    rw [e1, sub1_step_quote_match k.data hkq]
    have e2 : v.data.length + 5 + (sub1Cost rest + fuel) =
        (v.data.length + 4 + (sub1Cost rest + fuel)) + 1 := by omega
    rw [e2, sub1_step_other ' ' (by decide)]
    have e3 : v.data.length + 4 + (sub1Cost rest + fuel) =
        (v.data.length + 3 + (sub1Cost rest + fuel)) + 1 := by omega
    rw [e3, sub1_step_quote_nomatch _ hnm1]
    have e4 : v.data.length + 3 + (sub1Cost rest + fuel) =
        v.data.length + (3 + (sub1Cost rest + fuel)) := by omega
    rw [e4, sub1Go_emit v.data hvne]
    have e5 : 3 + (sub1Cost rest + fuel) = (2 + (sub1Cost rest + fuel)) + 1 := by omega
    rw [e5, sub1_step_quote_nomatch _ hnomatch]
    have e6 : 2 + (sub1Cost rest + fuel) = (1 + (sub1Cost rest + fuel)) + 1 := by omega
    rw [e6, sub1_step_other ',' (by decide)]
    have e7 : 1 + (sub1Cost rest + fuel) = (sub1Cost rest + fuel) + 1 := by omega
    rw [e7, sub1_step_other ' ' (by decide)]
    rw [ih hrest fuel]
    simp [List.cons_append, List.append_assoc]

/-- Fuel spent by the value-repair scanner on the key-repaired blocks. -/
def sub2Cost : List (String × String) → Nat
  | [] => 0
  | (k, _) :: rest => k.data.length + 5 + sub2Cost rest

/-- The value-repair scanner leaves the empty input unchanged. -/
theorem sub2Go_nil : ∀ fuel, sub2Go fuel [] = [] := by
  intro fuel; cases fuel <;> rfl

/-- Characters other than a colon are copied by the value repair. -/
theorem sub2_step_other (c : Char) (hc : c ≠ ':') (cs : List Char) (f : Nat) :
    sub2Go (f + 1) (c :: cs) = c :: sub2Go f cs := by
  rw [sub2Go.eq_3, if_neg hc]

/-- The value-repair scanner copies colon-free spans. -/
theorem sub2Go_emit : ∀ (l : List Char), (∀ c ∈ l, c ≠ ':') → ∀ fuel cs,
    sub2Go (l.length + fuel) (l ++ cs) = l ++ sub2Go fuel cs := by
  intro l
  induction l with
  | nil => intro _ fuel cs; simp
  | cons a l ih =>
    intro h fuel cs
    have harith : (a :: l).length + fuel = (l.length + fuel) + 1 := by
      simp [List.length_cons]
      omega
    rw [harith]
    show sub2Go ((l.length + fuel) + 1) (a :: (l ++ cs)) = _
    rw [sub2_step_other a (h a (List.mem_cons_self a l))]
    rw [ih (fun c hc => h c (List.mem_cons_of_mem a hc))]
    rfl

/-- A colon followed by whitespace and a single-quoted span is rewritten
with double quotes and a single space. -/
theorem sub2_step_colon_match (v : List Char) (hv : ∀ c ∈ v, (c != '\'') = true)
    (tail : List Char) (f : Nat) :
    sub2Go (f + 1) (':' :: ' ' :: '\'' :: (v ++ '\'' :: tail)) =
      ':' :: ' ' :: '"' :: v ++ '"' :: sub2Go f tail := by
  rw [sub2Go.eq_3, if_pos rfl]
  rw [show ((' ' :: '\'' :: (v ++ '\'' :: tail)).dropWhile isPyWs) =
      '\'' :: (v ++ '\'' :: tail) from by simp [List.dropWhile_cons, isPyWs]]
  have h2 : ((v ++ '\'' :: tail).dropWhile (fun x => x != '\'')) = '\'' :: tail :=
    dropWhile_app hv (by decide) _
  have h3 : ((v ++ '\'' :: tail).takeWhile (fun x => x != '\'')) = v :=
    takeWhile_app hv (by decide) _
  simp [h2, h3]

/-- The value-repair pass turns the key-repaired blocks into fully
double-quoted blocks. -/
theorem sub2Go_blocks :
    ∀ (kvs : List (String × String)),
      (∀ p ∈ kvs, goodStr p.1 = true ∧ goodStr p.2 = true) → ∀ fuel,
      sub2Go (sub2Cost kvs + fuel) (mid1App kvs ['}']) = mid2App kvs ['}'] := by
  intro kvs
  induction kvs with
  | nil =>
    intro _ fuel
    show sub2Go (0 + fuel) ['}'] = ['}']
    rw [Nat.zero_add]
    cases fuel with
    | zero => rfl
    | succ f => rw [sub2_step_other '}' (by decide), sub2Go_nil]
  | cons p rest ih =>
    obtain ⟨k, v⟩ := p
    intro hgood fuel
    obtain ⟨hk, hv⟩ := hgood (k, v) (List.mem_cons_self _ _)
    have hrest : ∀ q ∈ rest, goodStr q.1 = true ∧ goodStr q.2 = true :=
      fun q hq => hgood q (List.mem_cons_of_mem _ hq)
    have hvq := goodStr_ne_quote hv
    have hkc : ∀ c ∈ k.data, c ≠ ':' := by
      intro c hc
      exact goodChar_ne (by simpa using List.all_eq_true.mp hk c hc) (by decide)
    simp only [mid1App, mid2App, List.cons_append, List.append_assoc]
    have e1 : sub2Cost ((k, v) :: rest) + fuel =
        (k.data.length + 4 + (sub2Cost rest + fuel)) + 1 := by
      simp [sub2Cost]
      omega
    rw [e1, sub2_step_other '"' (by decide)]
    have e2 : k.data.length + 4 + (sub2Cost rest + fuel) =
        k.data.length + (4 + (sub2Cost rest + fuel)) := by omega
    rw [e2, sub2Go_emit k.data hkc]
    have e3 : 4 + (sub2Cost rest + fuel) = (3 + (sub2Cost rest + fuel)) + 1 := by omega
    rw [e3, sub2_step_other '"' (by decide)]
    have e4 : 3 + (sub2Cost rest + fuel) = (2 + (sub2Cost rest + fuel)) + 1 := by omega
    rw [e4, sub2_step_colon_match v.data hvq]
    have e5 : 2 + (sub2Cost rest + fuel) = (1 + (sub2Cost rest + fuel)) + 1 := by omega
    rw [e5, sub2_step_other ',' (by decide)]
    have e6 : 1 + (sub2Cost rest + fuel) = (sub2Cost rest + fuel) + 1 := by omega
    rw [e6, sub2_step_other ' ' (by decide)]
    rw [ih hrest fuel]
    simp [List.cons_append, List.append_assoc]

/-- Fuel spent by the trailing-comma scanner on the double-quoted
blocks (only the last block's comma is removed). -/
def sub3Cost : List (String × String) → Nat
  | [] => 0
  | [(k, v)] => k.data.length + v.data.length + 7
  | (k, v) :: rest => k.data.length + v.data.length + 8 + sub3Cost rest

/-- The trailing-comma scanner leaves the empty input unchanged. -/
theorem sub3Go_nil : ∀ fuel, sub3Go fuel [] = [] := by
  intro fuel; cases fuel <;> rfl

/-- Characters other than a comma are copied by the comma scanner. -/
theorem sub3_step_other (c : Char) (hc : c ≠ ',') (cs : List Char) (f : Nat) :
    sub3Go (f + 1) (c :: cs) = c :: sub3Go f cs := by
  rw [sub3Go.eq_3, if_neg hc]

/-- The comma scanner copies comma-free spans. -/
theorem sub3Go_emit : ∀ (l : List Char), (∀ c ∈ l, c ≠ ',') → ∀ fuel cs,
    sub3Go (l.length + fuel) (l ++ cs) = l ++ sub3Go fuel cs := by
  intro l
  induction l with
  | nil => intro _ fuel cs; simp
  | cons a l ih =>
    intro h fuel cs
    have harith : (a :: l).length + fuel = (l.length + fuel) + 1 := by
      simp [List.length_cons]
      omega
    rw [harith]
    show sub3Go ((l.length + fuel) + 1) (a :: (l ++ cs)) = _
    rw [sub3_step_other a (h a (List.mem_cons_self a l))]
    rw [ih (fun c hc => h c (List.mem_cons_of_mem a hc))]
    rfl

/-- A comma whose whitespace run ends at a double quote is kept. -/
theorem sub3_step_comma_next (cs : List Char) (f : Nat) :
    sub3Go (f + 1) (',' :: ' ' :: '"' :: cs) = ',' :: sub3Go f (' ' :: '"' :: cs) := by
  rw [sub3Go.eq_3, if_pos rfl]
  rw [show ((' ' :: '"' :: cs).dropWhile isPyWs) = '"' :: cs from by
    simp [List.dropWhile_cons, isPyWs]]
  simp

/-- A comma followed by whitespace and the closing brace is dropped,
its whitespace and brace kept. -/
theorem sub3_step_comma_brace (tail : List Char) (f : Nat) :
    sub3Go (f + 1) (',' :: ' ' :: '}' :: tail) = ' ' :: '}' :: sub3Go f tail := by
  rw [sub3Go.eq_3, if_pos rfl]
  rw [show ((' ' :: '}' :: tail).dropWhile isPyWs) = '}' :: tail from by
    simp [List.dropWhile_cons, isPyWs]]
  simp [List.takeWhile_cons, isPyWs]

/-- The comma pass removes exactly the trailing comma: the double-quoted
blocks become the canonical members followed by a space and the brace. -/
theorem sub3Go_blocks :
    ∀ (kvs : List (String × String)),
      (∀ p ∈ kvs, goodStr p.1 = true ∧ goodStr p.2 = true) → kvs ≠ [] → ∀ fuel,
      sub3Go (sub3Cost kvs + fuel) (mid2App kvs ['}']) =
        dqMembersApp kvs (' ' :: ['}']) := by
  intro kvs
  induction kvs with
  | nil => intro _ hne; exact absurd rfl hne
  | cons p rest ih =>
    obtain ⟨k, v⟩ := p
    intro hgood _ fuel
    obtain ⟨hk, hv⟩ := hgood (k, v) (List.mem_cons_self _ _)
    have hrest : ∀ q ∈ rest, goodStr q.1 = true ∧ goodStr q.2 = true :=
      fun q hq => hgood q (List.mem_cons_of_mem _ hq)
    have hkc : ∀ c ∈ k.data, c ≠ ',' := fun c hc =>
      goodChar_ne (by simpa using List.all_eq_true.mp hk c hc) (by decide)
    have hvc : ∀ c ∈ v.data, c ≠ ',' := fun c hc =>
      goodChar_ne (by simpa using List.all_eq_true.mp hv c hc) (by decide)
    cases rest with
    | nil =>
      simp only [mid2App, dqMembersApp, List.cons_append, List.append_assoc]
      have e1 : sub3Cost [(k, v)] + fuel =
          (k.data.length + (v.data.length + 6 + fuel)) + 1 := by
        simp [sub3Cost]
        omega
      rw [e1, sub3_step_other '"' (by decide)]
      rw [sub3Go_emit k.data hkc]
      have e3 : v.data.length + 6 + fuel = (v.data.length + 5 + fuel) + 1 := by omega
      rw [e3, sub3_step_other '"' (by decide)]
      have e4 : v.data.length + 5 + fuel = (v.data.length + 4 + fuel) + 1 := by omega
      rw [e4, sub3_step_other ':' (by decide)]
      have e5 : v.data.length + 4 + fuel = (v.data.length + 3 + fuel) + 1 := by omega
      rw [e5, sub3_step_other ' ' (by decide)]
      have e6 : v.data.length + 3 + fuel = (v.data.length + 2 + fuel) + 1 := by omega
      rw [e6, sub3_step_other '"' (by decide)]
      have e7 : v.data.length + 2 + fuel = v.data.length + (2 + fuel) := by omega
      rw [e7, sub3Go_emit v.data hvc]
      have e8 : 2 + fuel = (1 + fuel) + 1 := by omega
      rw [e8, sub3_step_other '"' (by decide)]
      have e9 : 1 + fuel = fuel + 1 := by omega
      rw [e9, sub3_step_comma_brace, sub3Go_nil]
    | cons q r2 =>
      obtain ⟨k2, v2⟩ := q
      have hC : sub3Cost ((k, v) :: (k2, v2) :: r2) + fuel =
          (k.data.length + (v.data.length + 7 +
            (sub3Cost ((k2, v2) :: r2) + fuel))) + 1 := by
        simp [sub3Cost]
        omega
      simp only [mid2App, dqMembersApp, List.cons_append, List.append_assoc]
      rw [hC, sub3_step_other '"' (by decide)]
      rw [sub3Go_emit k.data hkc]
      have e3 : v.data.length + 7 + (sub3Cost ((k2, v2) :: r2) + fuel) =
          (v.data.length + 6 + (sub3Cost ((k2, v2) :: r2) + fuel)) + 1 := by omega
      rw [e3, sub3_step_other '"' (by decide)]
      have e4 : v.data.length + 6 + (sub3Cost ((k2, v2) :: r2) + fuel) =
          (v.data.length + 5 + (sub3Cost ((k2, v2) :: r2) + fuel)) + 1 := by omega
      rw [e4, sub3_step_other ':' (by decide)]
      have e5 : v.data.length + 5 + (sub3Cost ((k2, v2) :: r2) + fuel) =
          (v.data.length + 4 + (sub3Cost ((k2, v2) :: r2) + fuel)) + 1 := by omega
      rw [e5, sub3_step_other ' ' (by decide)]
      have e6 : v.data.length + 4 + (sub3Cost ((k2, v2) :: r2) + fuel) =
          (v.data.length + 3 + (sub3Cost ((k2, v2) :: r2) + fuel)) + 1 := by omega
      rw [e6, sub3_step_other '"' (by decide)]
      have e7 : v.data.length + 3 + (sub3Cost ((k2, v2) :: r2) + fuel) =
          v.data.length + (3 + (sub3Cost ((k2, v2) :: r2) + fuel)) := by omega
      rw [e7, sub3Go_emit v.data hvc]
      have e8 : 3 + (sub3Cost ((k2, v2) :: r2) + fuel) =
          (2 + (sub3Cost ((k2, v2) :: r2) + fuel)) + 1 := by omega
      rw [e8, sub3_step_other '"' (by decide)]
      have e9 : 2 + (sub3Cost ((k2, v2) :: r2) + fuel) =
          (1 + (sub3Cost ((k2, v2) :: r2) + fuel)) + 1 := by omega
      rw [e9, sub3_step_comma_next]
      have e10 : 1 + (sub3Cost ((k2, v2) :: r2) + fuel) =
          (sub3Cost ((k2, v2) :: r2) + fuel) + 1 := by omega
      rw [e10, sub3_step_other ' ' (by decide)]
      have ihh := ih hrest (by simp) fuel
      simp only [mid2App, dqMembersApp, List.cons_append, List.append_assoc] at ihh
      rw [ihh]

/-- The key-repair fuel is covered by the blocks' length. -/
theorem sub1Cost_le : ∀ kvs : List (String × String),
    sub1Cost kvs ≤ (sqBlocksApp kvs ['}']).length := by
  intro kvs
  induction kvs with
  | nil => simp [sub1Cost, sqBlocksApp]
  | cons p rest ih =>
    obtain ⟨k, v⟩ := p
    have hlen : (sqBlocksApp ((k, v) :: rest) ['}']).length =
        k.data.length + v.data.length + 8 + (sqBlocksApp rest ['}']).length := by
      simp [sqBlocksApp, List.length_append, List.length_cons]
      omega
    simp only [sub1Cost, hlen]
    omega

/-- The value-repair fuel is covered by the blocks' length. -/
theorem sub2Cost_le : ∀ kvs : List (String × String),
    sub2Cost kvs ≤ (mid1App kvs ['}']).length := by
  intro kvs
  induction kvs with
  | nil => simp [sub2Cost, mid1App]
  | cons p rest ih =>
    obtain ⟨k, v⟩ := p
    have hlen : (mid1App ((k, v) :: rest) ['}']).length =
        k.data.length + v.data.length + 8 + (mid1App rest ['}']).length := by
      simp [mid1App, List.length_append, List.length_cons]
      omega
    simp only [sub2Cost, hlen]
    omega

/-- The comma-scan fuel is covered by the blocks' length. -/
theorem sub3Cost_le : ∀ kvs : List (String × String),
    sub3Cost kvs ≤ (mid2App kvs ['}']).length := by
  intro kvs
  induction kvs with
  | nil => simp [sub3Cost, mid2App]
  | cons p rest ih =>
    obtain ⟨k, v⟩ := p
    have hlen : (mid2App ((k, v) :: rest) ['}']).length =
        k.data.length + v.data.length + 8 + (mid2App rest ['}']).length := by
      simp [mid2App, List.length_append, List.length_cons]
      omega
    cases rest with
    | nil =>
      simp only [sub3Cost, hlen]
      omega
    | cons q r2 =>
      simp only [sub3Cost, hlen]
      omega

/-- The key repair of the single-quoted variant. -/
theorem sub1_variant (kvs : List (String × String))
    (hg : ∀ p ∈ kvs, goodStr p.1 = true ∧ goodStr p.2 = true) :
    sub1 (sqVariant kvs) = ⟨'{' :: mid1App kvs ['}']⟩ := by
  suffices h : sub1Go (sqVariant kvs).data.length (sqVariant kvs).data =
      '{' :: mid1App kvs ['}'] from congrArg String.mk h
  rw [show (sqVariant kvs).data = '{' :: sqBlocksApp kvs ['}'] from rfl]
  rw [List.length_cons]
  rw [sub1_step_other '{' (by decide)]
  rw [show (sqBlocksApp kvs ['}']).length =
      sub1Cost kvs + ((sqBlocksApp kvs ['}']).length - sub1Cost kvs) from by
    have := sub1Cost_le kvs
    omega]
  rw [sub1Go_blocks kvs hg]

/-- The value repair of the key-repaired variant. -/
theorem sub2_variant (kvs : List (String × String))
    (hg : ∀ p ∈ kvs, goodStr p.1 = true ∧ goodStr p.2 = true) :
    sub2 (⟨'{' :: mid1App kvs ['}']⟩ : String) = ⟨'{' :: mid2App kvs ['}']⟩ := by
  suffices h : sub2Go ('{' :: mid1App kvs ['}']).length ('{' :: mid1App kvs ['}']) =
      '{' :: mid2App kvs ['}'] from congrArg String.mk h
  rw [List.length_cons]
  rw [sub2_step_other '{' (by decide)]
  rw [show (mid1App kvs ['}']).length =
      sub2Cost kvs + ((mid1App kvs ['}']).length - sub2Cost kvs) from by
    have := sub2Cost_le kvs
    omega]
  rw [sub2Go_blocks kvs hg]

/-- The trailing-comma repair of the double-quoted variant. -/
theorem sub3_variant (kvs : List (String × String))
    (hg : ∀ p ∈ kvs, goodStr p.1 = true ∧ goodStr p.2 = true) (hne : kvs ≠ []) :
    sub3 (⟨'{' :: mid2App kvs ['}']⟩ : String) =
      ⟨'{' :: dqMembersApp kvs (' ' :: ['}'])⟩ := by
  suffices h : sub3Go ('{' :: mid2App kvs ['}']).length ('{' :: mid2App kvs ['}']) =
      '{' :: dqMembersApp kvs (' ' :: ['}']) from congrArg String.mk h
  rw [List.length_cons]
  rw [sub3_step_other '{' (by decide)]
  rw [show (mid2App kvs ['}']).length =
      sub3Cost kvs + ((mid2App kvs ['}']).length - sub3Cost kvs) from by
    have := sub3Cost_le kvs
    omega]
  rw [sub3Go_blocks kvs hg hne]

/-- The single-quoted blocks end in the continuation. -/
theorem sqBlocksApp_split : ∀ (kvs : List (String × String)) (t : List Char),
    ∃ pre, sqBlocksApp kvs t = pre ++ t := by
  intro kvs
  induction kvs with
  | nil => intro t; exact ⟨[], rfl⟩
  | cons p rest ih =>
    intro t
    obtain ⟨k, v⟩ := p
    obtain ⟨pre, hp⟩ := ih t
    refine ⟨'\'' :: k.data ++ '\'' :: ':' :: ' ' :: '\'' :: v.data ++
      '\'' :: ',' :: ' ' :: pre, ?_⟩
    simp [sqBlocksApp, hp, List.cons_append, List.append_assoc]

/-- `strip` leaves the variant unchanged: it starts with a brace and ends
with a brace. -/
theorem pyStrip_variant (kvs : List (String × String)) :
    pyStrip (sqVariant kvs) = sqVariant kvs := by
  obtain ⟨pre, hp⟩ := sqBlocksApp_split kvs ['}']
  suffices h : (((('{' :: sqBlocksApp kvs ['}']).dropWhile isPyWs).reverse.dropWhile
      isPyWs)).reverse = '{' :: sqBlocksApp kvs ['}'] from congrArg String.mk h
  rw [hp]
  rw [show (('{' :: (pre ++ ['}'])).dropWhile isPyWs) = '{' :: (pre ++ ['}']) from by
    simp [List.dropWhile_cons, isPyWs]]
  rw [show ('{' :: (pre ++ ['}'])).reverse = '}' :: (pre.reverse ++ ['{']) from by
    simp [List.reverse_cons, List.reverse_append]]
  rw [show (('}' :: (pre.reverse ++ ['{'])).dropWhile isPyWs) =
      '}' :: (pre.reverse ++ ['{']) from by simp [List.dropWhile_cons, isPyWs]]
  simp [List.reverse_cons, List.reverse_append]

/-- The brace span of the variant is the variant itself. -/
theorem braceSpan_variant (kvs : List (String × String)) :
    braceSpan (sqVariant kvs) = some (sqVariant kvs) := by
  obtain ⟨pre, hp⟩ := sqBlocksApp_split kvs ['}']
  unfold braceSpan
  rw [show (sqVariant kvs).data = '{' :: sqBlocksApp kvs ['}'] from rfl, hp]
  rw [show (('{' :: (pre ++ ['}'])).dropWhile (fun c => c != '{')) =
      '{' :: (pre ++ ['}']) from by simp [List.dropWhile_cons]]
  simp only []
  rw [show (pre ++ ['}']).reverse = '}' :: pre.reverse from by
    simp [List.reverse_append]]
  rw [show (('}' :: pre.reverse).dropWhile (fun x => x != '}')) =
      '}' :: pre.reverse from by simp [List.dropWhile_cons]]
  simp [sqVariant, hp]
/-- All characters of an alphanumeric string are alphanumeric. -/
theorem goodStr_chars {s : String} (h : goodStr s = true) :
    ∀ c ∈ s.data, goodChar c = true := by
  intro c hc
  simpa using List.all_eq_true.mp h c hc

/-- `skipWs` stops at a non-whitespace head. -/
theorem skipWs_nonws {c : Char} (h : jsonWsChar c = false) (cs : List Char) :
    skipWs (c :: cs) = c :: cs := by
  simp [skipWs, List.dropWhile_cons, h]

/-- `skipWs` consumes a leading space. -/
theorem skipWs_space (cs : List Char) : skipWs (' ' :: cs) = skipWs cs := rfl

/-- The string scanner reads an alphanumeric body up to its closing
quote. -/
theorem parseStr_plain : ∀ (k : List Char), (∀ c ∈ k, goodChar c = true) → ∀ rest,
    parseStrChars (k ++ '"' :: rest) = some (k, rest) := by
  intro k
  induction k with
  | nil => intro _ rest; rfl
  | cons c k ih =>
    intro h rest
    have hc := h c (List.mem_cons_self c k)
    have h1 : c ≠ '"' := goodChar_ne hc (by decide)
    have h2 : c ≠ '\\' := goodChar_ne hc (by decide)
    have h3 : ¬(c.toNat < 32) := goodChar_ge32 hc
    show parseStrChars (c :: (k ++ '"' :: rest)) = _
    rw [parseStrChars.eq_def]
    split
    · simp_all
    · simp_all
    · simp_all
    · rename_i c' rest' hne1 hne2 heq
      injection heq with hc1 hc2
      subst hc1
      subst hc2
      rw [if_neg h3, ih (fun x hx => h x (List.mem_cons_of_mem c hx)) rest]

/-- A quoted alphanumeric body is read as the string value. -/
theorem parseStrVal_plain (s : String) (hs : ∀ c ∈ s.data, goodChar c = true)
    (rest : List Char) : parseStrVal (s.data ++ '"' :: rest) = some (Json.str s, rest) := by
  rw [parseStrVal, parseStr_plain s.data hs rest]

/-- A value opening with `"` and an alphanumeric body is read as the
string value, whatever the continuation. -/
theorem parseValStep_string (p : PCont) (s : String)
    (hs : ∀ c ∈ s.data, goodChar c = true) (rest : List Char) :
    parseValStep p ('"' :: (s.data ++ '"' :: rest)) = some (Json.str s, rest) := by
  rw [show parseValStep p ('"' :: (s.data ++ '"' :: rest)) =
    parseStrVal (s.data ++ '"' :: rest) from rfl]
  exact parseStrVal_plain s hs rest

/-- A non-`}` head after `{` starts the object's members. -/
theorem parseObjStart_ne (p : PCont) (c : Char) (r : List Char) (h : c ≠ '}') :
    parseObjStart p (c :: r) = p (PMode.members []) (c :: r) := by
  rw [parseObjStart.eq_def]
  split
  · rename_i heq
    injection heq with h1 h2
    exact absurd h1 h
  · rfl

/-- Reading one canonical member `"k": "v"` consumes it and hands the
separator to `parseMembersAfter`. -/
theorem parseF_member_step (f : Nat) (acc : List (String × Json)) (k v : String)
    (hk : ∀ c ∈ k.data, goodChar c = true) (hv : ∀ c ∈ v.data, goodChar c = true)
    (TAIL : List Char) :
    parseF (f + 2) (PMode.members acc)
      ('"' :: (k.data ++ '"' :: ':' :: ' ' :: '"' :: (v.data ++ '"' :: TAIL))) =
      parseMembersAfter (parseF (f + 1)) acc k.data (Json.str v) (skipWs TAIL) := by
  show parseMembersStep (parseF (f + 1)) acc
      ('"' :: (k.data ++ '"' :: ':' :: ' ' :: '"' :: (v.data ++ '"' :: TAIL))) = _
  rw [show parseMembersStep (parseF (f + 1)) acc
      ('"' :: (k.data ++ '"' :: ':' :: ' ' :: '"' :: (v.data ++ '"' :: TAIL))) =
    parseMembersKey (parseF (f + 1)) acc
      (k.data ++ '"' :: ':' :: ' ' :: '"' :: (v.data ++ '"' :: TAIL)) from rfl]
  rw [parseMembersKey, parseStr_plain k.data hk]
  rw [show (match some (k.data, ':' :: ' ' :: '"' :: (v.data ++ '"' :: TAIL)) with
    | some (k2, r1) => parseMembersColon (parseF (f + 1)) acc k2 (skipWs r1)
    | none => none) =
    parseMembersColon (parseF (f + 1)) acc k.data
      (skipWs (':' :: ' ' :: '"' :: (v.data ++ '"' :: TAIL))) from rfl]
  rw [skipWs_nonws (by decide)]
  rw [show parseMembersColon (parseF (f + 1)) acc k.data
      (':' :: ' ' :: '"' :: (v.data ++ '"' :: TAIL)) =
    parseMembersValue (parseF (f + 1)) acc k.data
      (skipWs (' ' :: '"' :: (v.data ++ '"' :: TAIL))) from rfl]
  rw [skipWs_space, skipWs_nonws (by decide)]
  rw [parseMembersValue]
  rw [show parseF (f + 1) PMode.val ('"' :: (v.data ++ '"' :: TAIL)) =
    parseValStep (parseF f) ('"' :: (v.data ++ '"' :: TAIL)) from rfl]
  rw [parseValStep_string (parseF f) v hv TAIL]

/-- Reading the canonical members of a nonempty alphanumeric pair list,
up to the closing `}` (optionally preceded by one space), collects
exactly those pairs as string fields.  One unit of fuel per pair plus one
suffices. -/
theorem parseF_members : ∀ (kvs : List (String × String)) (f : Nat)
    (acc : List (String × Json)) (W rest : List Char),
    (∀ p ∈ kvs, goodStr p.1 = true ∧ goodStr p.2 = true) → kvs ≠ [] →
    (W = [] ∨ W = [' ']) →
    parseF (kvs.length + 1 + f) (PMode.members acc)
      (dqMembersApp kvs (W ++ '}' :: rest)) =
      some (Json.obj (acc ++ kvs.map (fun p => (p.1, Json.str p.2))), rest) := by
  intro kvs
  induction kvs with
  | nil => intro f acc W rest hg hne hw; exact absurd rfl hne
  | cons p rest2 ih =>
    intro f acc W rest hg hne hw
    obtain ⟨k, v⟩ := p
    have hk : ∀ c ∈ k.data, goodChar c = true :=
      goodStr_chars (hg (k, v) (List.mem_cons_self _ _)).1
    have hv : ∀ c ∈ v.data, goodChar c = true :=
      goodStr_chars (hg (k, v) (List.mem_cons_self _ _)).2
    have hskip : skipWs (W ++ '}' :: rest) = '}' :: rest := by
      rcases hw with h | h <;> subst h
      · exact skipWs_nonws (by decide) rest
      · show skipWs (' ' :: ('}' :: rest)) = _
        rw [skipWs_space]
        exact skipWs_nonws (by decide) rest
    cases rest2 with
    | nil =>
      have e1 : dqMembersApp [(k, v)] (W ++ '}' :: rest) =
          '"' :: (k.data ++ '"' :: ':' :: ' ' :: '"' ::
            (v.data ++ '"' :: (W ++ '}' :: rest))) := by
        simp [dqMembersApp, List.cons_append, List.append_assoc]
      rw [show ([(k, v)] : List (String × String)).length + 1 + f = f + 2 from by
        simp [List.length_cons]; omega]
      rw [e1, parseF_member_step f acc k v hk hv, hskip]
      show some (Json.obj (acc ++ [(⟨k.data⟩, Json.str v)]), rest) = _
      simp
    | cons q rest3 =>
      have e1 : dqMembersApp ((k, v) :: q :: rest3) (W ++ '}' :: rest) =
          '"' :: (k.data ++ '"' :: ':' :: ' ' :: '"' ::
            (v.data ++ '"' :: ',' :: ' ' ::
              dqMembersApp (q :: rest3) (W ++ '}' :: rest))) := by
        simp [dqMembersApp, List.cons_append, List.append_assoc]
      rw [show ((k, v) :: q :: rest3).length + 1 + f =
          (rest3.length + 1 + f) + 2 from by simp [List.length_cons]; omega]
      rw [e1, parseF_member_step (rest3.length + 1 + f) acc k v hk hv]
      rw [skipWs_nonws (by decide)]
      show parseF (rest3.length + 1 + f + 1)
        (PMode.members (acc ++ [(⟨k.data⟩, Json.str v)]))
        (skipWs (' ' :: dqMembersApp (q :: rest3) (W ++ '}' :: rest))) = _
      rw [skipWs_space]
      have hhead : ∃ t, dqMembersApp (q :: rest3) (W ++ '}' :: rest) = '"' :: t := by
        obtain ⟨k2, v2⟩ := q
        cases rest3 <;> exact ⟨_, rfl⟩
      obtain ⟨t, ht⟩ := hhead
      rw [ht, skipWs_nonws (by decide), ← ht]
      rw [show rest3.length + 1 + f + 1 = (q :: rest3).length + 1 + f from by
        simp [List.length_cons]; omega]
      have hih := ih f (acc ++ [(String.mk k.data, Json.str v)]) W rest
        (fun p hp => hg p (List.mem_cons_of_mem _ hp)) (by simp) hw
      rw [hih]
      simp

/-- Each pair contributes at least one character to the canonical
members. -/
theorem dqMembersApp_length_ge : ∀ (kvs : List (String × String)) (t : List Char),
    kvs.length ≤ (dqMembersApp kvs t).length := by
  intro kvs
  induction kvs with
  | nil => intro t; simp [dqMembersApp]
  | cons p rest ih =>
    intro t
    obtain ⟨k, v⟩ := p
    cases rest with
    | nil => simp [dqMembersApp]
    | cons q rest2 =>
      have h := ih t
      simp only [dqMembersApp, List.length_cons, List.length_append] at h ⊢
      omega

/-- Reading a canonical object as a value yields its fields. -/
theorem parseF_top (kvs : List (String × String)) (f : Nat) (W rest : List Char)
    (hg : ∀ p ∈ kvs, goodStr p.1 = true ∧ goodStr p.2 = true)
    (hne : kvs ≠ []) (hw : W = [] ∨ W = [' ']) :
    parseF (kvs.length + 2 + f) PMode.val ('{' :: dqMembersApp kvs (W ++ '}' :: rest)) =
      some (Json.obj (kvs.map (fun p => (p.1, Json.str p.2))), rest) := by
  rw [show kvs.length + 2 + f = (kvs.length + 1 + f) + 1 from by omega]
  rw [show parseF ((kvs.length + 1 + f) + 1) PMode.val
      ('{' :: dqMembersApp kvs (W ++ '}' :: rest)) =
    parseObjStart (parseF (kvs.length + 1 + f))
      (skipWs (dqMembersApp kvs (W ++ '}' :: rest))) from rfl]
  have hhead : ∃ t, dqMembersApp kvs (W ++ '}' :: rest) = '"' :: t := by
    cases kvs with
    | nil => exact absurd rfl hne
    | cons q rest2 =>
      obtain ⟨k2, v2⟩ := q
      cases rest2 <;> exact ⟨_, rfl⟩
  obtain ⟨t, ht⟩ := hhead
  rw [ht, skipWs_nonws (by decide), parseObjStart_ne _ _ _ (by decide), ← ht]
  have := parseF_members kvs f [] W rest hg hne hw
  simpa using this

/-- `json.loads` accepts a canonical object rendering (closing brace
optionally preceded by one space) and returns its fields. -/
theorem json_loads_dqApp (kvs : List (String × String)) (W : List Char)
    (hg : ∀ p ∈ kvs, goodStr p.1 = true ∧ goodStr p.2 = true)
    (hne : kvs ≠ []) (hw : W = [] ∨ W = [' ']) :
    json_loads ⟨'{' :: dqMembersApp kvs (W ++ ['}'])⟩ =
      some (Json.obj (kvs.map (fun p => (p.1, Json.str p.2)))) := by
  have hlen := dqMembersApp_length_ge kvs (W ++ ['}'])
  have e : (⟨'{' :: dqMembersApp kvs (W ++ ['}'])⟩ : String).data =
      '{' :: dqMembersApp kvs (W ++ ['}']) := rfl
  rw [json_loads, e]
  rw [skipWs_nonws (by decide)]
  rw [show 2 * ('{' :: dqMembersApp kvs (W ++ ['}'])).length + 2 =
      kvs.length + 2 + (2 * ('{' :: dqMembersApp kvs (W ++ ['}'])).length - kvs.length)
    from by simp only [List.length_cons]; omega]
  rw [parseF_top kvs _ W [] hg hne hw]
  rfl

/-- `json.loads` accepts the canonical double-quoted rendering. -/
theorem json_loads_dqRender (kvs : List (String × String))
    (hg : ∀ p ∈ kvs, goodStr p.1 = true ∧ goodStr p.2 = true) (hne : kvs ≠ []) :
    json_loads (dqRender kvs) =
      some (Json.obj (kvs.map (fun p => (p.1, Json.str p.2)))) := by
  show json_loads ⟨'{' :: dqMembersApp kvs ([] ++ ['}'])⟩ = _
  exact json_loads_dqApp kvs [] hg hne (Or.inl rfl)

/-- `json.loads` accepts the repaired rendering, whose closing brace
keeps the space the dropped comma's `\s*` captured. -/
theorem json_loads_repairedShape (kvs : List (String × String))
    (hg : ∀ p ∈ kvs, goodStr p.1 = true ∧ goodStr p.2 = true) (hne : kvs ≠ []) :
    json_loads (⟨'{' :: dqMembersApp kvs (' ' :: ['}'])⟩ : String) =
      some (Json.obj (kvs.map (fun p => (p.1, Json.str p.2)))) := by
  show json_loads ⟨'{' :: dqMembersApp kvs ([' '] ++ ['}'])⟩ = _
  exact json_loads_dqApp kvs [' '] hg hne (Or.inr rfl)

/-- The three repairs turn the single-quoted, trailing-comma variant into
the canonical rendering with a space before the closing brace. -/
theorem repairedText_variant (kvs : List (String × String))
    (hg : ∀ p ∈ kvs, goodStr p.1 = true ∧ goodStr p.2 = true) (hne : kvs ≠ []) :
    repairedText (sqVariant kvs) = ⟨'{' :: dqMembersApp kvs (' ' :: ['}'])⟩ := by
  unfold repairedText
  rw [pyStrip_variant, sub1_variant kvs hg, sub2_variant kvs hg, sub3_variant kvs hg hne]

/-- The strict parse rejects the single-quoted variant outright: the
first member does not open with a double quote. -/
theorem json_loads_sqVariant (k v : String) (rest : List (String × String)) :
    json_loads (sqVariant ((k, v) :: rest)) = none := rfl

/-- The single-quoted variant is not the empty string. -/
theorem sqVariant_ne_empty (kvs : List (String × String)) : sqVariant kvs ≠ "" := by
  intro h
  have := congrArg String.data h
  simp [sqVariant] at this

/-- The canonical rendering is not the empty string. -/
theorem dqRender_ne_empty (kvs : List (String × String)) : dqRender kvs ≠ "" := by
  intro h
  have := congrArg String.data h
  simp [dqRender] at this

/-- The Normalizer on the single-quoted, trailing-comma variant: the
strict and span parses fail, the repaired parse succeeds with exactly the
rendered fields. -/
theorem safe_json_parse_sqVariant (kvs : List (String × String))
    (hg : ∀ p ∈ kvs, goodStr p.1 = true ∧ goodStr p.2 = true) (hne : kvs ≠ []) :
    safe_json_parse (sqVariant kvs) =
      some (Json.obj (kvs.map (fun p => (p.1, Json.str p.2)))) := by
  cases kvs with
  | nil => exact absurd rfl hne
  | cons p rest =>
    obtain ⟨k, v⟩ := p
    have h0 : safe_json_parse (sqVariant ((k, v) :: rest)) =
        (match braceSpan (sqVariant ((k, v) :: rest)) with
         | some span =>
           (match json_loads span with
            | some v2 => some v2
            | none => json_loads (repairedText (sqVariant ((k, v) :: rest))))
         | none => json_loads (repairedText (sqVariant ((k, v) :: rest)))) := rfl
    rw [h0, braceSpan_variant]
    have h1 : (match json_loads (sqVariant ((k, v) :: rest)) with
         | some v2 => some v2
         | none => json_loads (repairedText (sqVariant ((k, v) :: rest)))) =
        json_loads (repairedText (sqVariant ((k, v) :: rest))) := by
      rw [json_loads_sqVariant k v rest]
    show (match json_loads (sqVariant ((k, v) :: rest)) with
         | some v2 => some v2
         | none => json_loads (repairedText (sqVariant ((k, v) :: rest)))) = _
    rw [h1, repairedText_variant _ hg hne]
    exact json_loads_repairedShape _ hg hne

/-- The Normalizer on the canonical rendering: the strict parse already
succeeds with exactly the rendered fields. -/
theorem safe_json_parse_dqRender (kvs : List (String × String))
    (hg : ∀ p ∈ kvs, goodStr p.1 = true ∧ goodStr p.2 = true) (hne : kvs ≠ []) :
    safe_json_parse (dqRender kvs) =
      some (Json.obj (kvs.map (fun p => (p.1, Json.str p.2)))) := by
  have h0 : safe_json_parse (dqRender kvs) =
      (match json_loads (dqRender kvs) with
       | some v2 => some v2
       | none =>
         (match braceSpan (dqRender kvs) with
          | some span =>
            (match json_loads span with
             | some v2 => some v2
             | none => json_loads (repairedText (dqRender kvs)))
          | none => json_loads (repairedText (dqRender kvs)))) := rfl
  rw [h0, json_loads_dqRender kvs hg hne]

/-- C7 (amended): on the canonical object renderings `{"k": "v", ...}`
with nonempty alphanumeric keys-and-values lists, the Normalizer maps the
single-quoted, trailing-comma variant `{'k': 'v', ..., }` and the
already-repaired rendering to the same structured value, namely the
object with exactly those string fields.  (The restriction to the
canonical layout is necessary: a space before a colon already defeats the
key repair, as the counterexample shows.) -/
theorem C7_repair_amended (kvs : List (String × String))
    (hg : ∀ p ∈ kvs, goodStr p.1 = true ∧ goodStr p.2 = true) (hne : kvs ≠ []) :
    safe_json_parse (sqVariant kvs) = safe_json_parse (dqRender kvs) ∧
    safe_json_parse (dqRender kvs) =
      some (Json.obj (kvs.map (fun p => (p.1, Json.str p.2)))) := by
  have h1 := safe_json_parse_sqVariant kvs hg hne
  have h2 := safe_json_parse_dqRender kvs hg hne
  exact ⟨h1.trans h2.symm, h2⟩

/-- C7 (counterexample to the original claim): `{"a" : "b"}` is an
object-shaped string with double-quoted keys and values and no trailing
comma, and the Normalizer parses it; but its single-quoted,
trailing-comma variant `{'a' : 'b',}` comes back `None`, not the same
value — the key-repair regex requires the quote to touch the colon. -/
theorem C7_repair_counterexample :
    safe_json_parse "\x7b\"a\" : \"b\"\x7d" = some (Json.obj [("a", Json.str "b")]) ∧
    safe_json_parse "\x7b'a' : 'b',\x7d" = none := ⟨rfl, rfl⟩

/-- C7 (witness): the amended statement instantiated at the single pair
`a ↦ b`. -/
theorem C7_repair_witness :
    ((∀ p ∈ [(("a" : String), ("b" : String))], goodStr p.1 = true ∧ goodStr p.2 = true) ∧
      ([(("a" : String), ("b" : String))] : List (String × String)) ≠ []) ∧
    (safe_json_parse (sqVariant [("a", "b")]) = safe_json_parse (dqRender [("a", "b")]) ∧
     safe_json_parse (dqRender [("a", "b")]) =
       some (Json.obj ([(("a" : String), ("b" : String))].map
         (fun p => (p.1, Json.str p.2))))) :=
  ⟨⟨by decide, by decide⟩, C7_repair_amended [("a", "b")] (by decide) (by decide)⟩
